import Mathlib

/-!
# Verification of the hype-copy-bot position-and-PnL accounting engine

Shallow embedding of the paper-trading core (`paper_trading.go`, here the
`PaperTrader` engine of `src/unnamed/part_005`, together with the storage
layer of `src/storage.go`) and proofs of the specification claims C1-C10.

Modelling conventions:
* Go `float64` values are modelled by exact rationals (`ℚ`).  Every claim
  under scrutiny is an algebraic statement that the Go code realises with
  float arithmetic; the exact-arithmetic model is the idealised semantics
  those claims describe.  The single place where IEEE semantics matters
  (a division whose divisor can be zero, producing `+Inf`) is modelled
  explicitly: see `batchAvgPrice` below.
* Go `time.Time` / `time.Now()` are modelled by an explicit `now : ℚ`
  (seconds) supplied with every processed fill; `time.Duration` values
  become rational numbers of seconds.
* `math.Pow` (used only for the volume-decay factor) is modelled by an
  explicit function parameter `powQ : ℚ → ℚ → ℚ` (base, exponent).
* Go maps with a zero default (`PendingVolume`, `PendingFills`,
  `LastVolumeUpdate`) are modelled as total functions with pointwise
  update; the `Positions` map, whose entries are summed over, is an
  association list with insert-or-replace update.
-/

/-- One executed trade report from the monitored account
(struct `Fill`, `client.go`).  `closedPnl` is string-encoded in Go and
parsed with `strconv.ParseFloat`; we model the parse result directly:
`none` stands for a malformed string (parse failure), `some q` for a
string parsing to the value `q`. -/
structure Fill where
  coin : String
  side : String
  size : ℚ
  price : ℚ
  time : ℤ
  closedPnl : Option ℚ
  deriving Repr, DecidableEq

/-- One mutable position record per instrument (struct `Position`). -/
structure Position where
  coin : String
  size : ℚ
  avgEntryPrice : ℚ
  totalCostBasis : ℚ
  realizedPnL : ℚ
  lastPrice : ℚ
  openTime : ℚ
  tradeCount : ℕ
  deriving Repr, DecidableEq

/-- Append-only trade record (struct `PaperTrade`).  `timestamp` keeps the
venue's millisecond stamp of the last fill of the batch (Go converts it to
seconds for display only).  `priceFinite` is the finiteness tracker for the
`price` field: Go stores the IEEE quotient `totalValue / math.Abs(totalSize)`,
which is non-finite exactly when the batch's signed sizes net to zero; see
`batchAvgPrice`. -/
structure PaperTrade where
  timestamp : ℤ
  coin : String
  action : String
  side : String
  size : ℚ
  price : ℚ
  priceFinite : Bool
  realizedPnL : ℚ
  positionSize : ℚ
  unrealizedPnL : ℚ
  deriving Repr, DecidableEq

/-- The five position-transition kinds (type `PositionAction`). -/
inductive PositionAction where
  | ActionOpen
  | ActionAdd
  | ActionReduce
  | ActionClose
  | ActionReverse
  deriving Repr, DecidableEq

open PositionAction

/-- `PositionAction.String()` from the source. -/
def PositionAction.str : PositionAction → String
  | ActionOpen => "OPEN"
  | ActionAdd => "ADD"
  | ActionReduce => "REDUCE"
  | ActionClose => "CLOSE"
  | ActionReverse => "REVERSE"

/-- `determineAction(oldSize, newSize)`: the action classifier, translated
branch by branch from the source. -/
def determineAction (oldSize newSize : ℚ) : PositionAction :=
  if oldSize = 0 ∧ newSize ≠ 0 then ActionOpen
  else if oldSize ≠ 0 ∧ newSize = 0 then ActionClose
  else if (oldSize > 0 ∧ newSize < 0) ∨ (oldSize < 0 ∧ newSize > 0) then ActionReverse
  else if (oldSize > 0 ∧ newSize > oldSize) ∨ (oldSize < 0 ∧ newSize < oldSize) then ActionAdd
  else if (oldSize > 0 ∧ newSize < oldSize ∧ newSize > 0) ∨
          (oldSize < 0 ∧ newSize > oldSize ∧ newSize < 0) then ActionReduce
  else ActionAdd

/-- `calculateRealizedPnL(position, tradeSize, price, closedPnL, action)`,
translated branch by branch from the source. -/
def calculateRealizedPnL (position : Position) (tradeSize price closedPnL : ℚ)
    (action : PositionAction) : ℚ :=
  if action = ActionAdd ∨ action = ActionOpen then 0
  else if closedPnL ≠ 0 ∧
      (action = ActionReduce ∨ action = ActionClose ∨ action = ActionReverse) then closedPnL
  else if (position.size > 0 ∧ tradeSize < 0) ∨ (position.size < 0 ∧ tradeSize > 0) then
    if position.avgEntryPrice > 0 then
      let reducedSize0 := |tradeSize|
      let reducedSize := if reducedSize0 > |position.size| then |position.size| else reducedSize0
      let pnlPerUnit := if position.size < 0 then position.avgEntryPrice - price
                        else price - position.avgEntryPrice
      pnlPerUnit * reducedSize
    else 0
  else 0

/-- `updatePosition(position, tradeSize, price, realizedPnL)`: the
invariant-preserving ledger update, translated branch by branch from the
source.  Go mutates the record in place; here the updated record is
returned.  `now` models the `time.Now()` stored into `OpenTime` on open
and reversal. -/
def updatePosition (now : ℚ) (position : Position) (tradeSize price realizedPnL : ℚ) :
    Position :=
  let oldSize := position.size
  let newSize := oldSize + tradeSize
  let p1 := { position with
    realizedPnL := position.realizedPnL + realizedPnL
    size := newSize
    tradeCount := position.tradeCount + 1 }
  if newSize = 0 then
    { p1 with avgEntryPrice := 0, totalCostBasis := 0 }
  else if oldSize = 0 then
    { p1 with avgEntryPrice := price, totalCostBasis := price * |tradeSize|, openTime := now }
  else if (oldSize > 0 ∧ newSize < 0) ∨ (oldSize < 0 ∧ newSize > 0) then
    { p1 with avgEntryPrice := price, totalCostBasis := price * |newSize|, openTime := now }
  else if (oldSize > 0 ∧ tradeSize > 0) ∨ (oldSize < 0 ∧ tradeSize < 0) then
    let totalCost := position.totalCostBasis + price * |tradeSize|
    { p1 with totalCostBasis := totalCost, avgEntryPrice := totalCost / |newSize| }
  else
    p1

/-- `calculateUnrealizedPnL(position)`: mark-to-market PnL, from the source. -/
def calculateUnrealizedPnL (position : Position) : ℚ :=
  if position.size = 0 ∨ position.avgEntryPrice = 0 then 0
  else (position.lastPrice - position.avgEntryPrice) * position.size

/-- The zero-valued position `getPosition` creates lazily for a coin seen
for the first time (`OpenTime` is `time.Now()` at creation). -/
def freshPosition (now : ℚ) (coin : String) : Position :=
  { coin := coin, size := 0, avgEntryPrice := 0, totalCostBasis := 0,
    realizedPnL := 0, lastPrice := 0, openTime := now, tradeCount := 0 }

/-! ## Action classifier characterisations -/

lemma determineAction_eq_close {o n : ℚ} (h : determineAction o n = ActionClose) :
    o ≠ 0 ∧ n = 0 := by
  unfold determineAction at h
  split_ifs at h <;> simp_all

lemma determineAction_eq_reduce {o n : ℚ} (h : determineAction o n = ActionReduce) :
    (o > 0 ∧ n < o ∧ n > 0) ∨ (o < 0 ∧ n > o ∧ n < 0) := by
  unfold determineAction at h
  split_ifs at h <;> simp_all

lemma determineAction_eq_reverse {o n : ℚ} (h : determineAction o n = ActionReverse) :
    (o > 0 ∧ n < 0) ∨ (o < 0 ∧ n > 0) := by
  unfold determineAction at h
  split_ifs at h <;> simp_all

/-- C1: `calculateRealizedPnL` returns 0 on OPEN/ADD even when the venue
reports a non-zero closed PnL; on REDUCE/CLOSE/REVERSE it returns the
venue-reported PnL verbatim when non-zero, and otherwise
`perUnit * reducedQty` with `reducedQty = min |Δ| |size|` and
`perUnit = p - avg` for longs, `avg - p` for shorts. -/
theorem claim_C1_calculateRealizedPnL (pos : Position) (Δ p v : ℚ)
    (havg : 0 < pos.avgEntryPrice) :
    ((determineAction pos.size (pos.size + Δ) = ActionOpen ∨
      determineAction pos.size (pos.size + Δ) = ActionAdd) →
      calculateRealizedPnL pos Δ p v (determineAction pos.size (pos.size + Δ)) = 0) ∧
    ((determineAction pos.size (pos.size + Δ) = ActionReduce ∨
      determineAction pos.size (pos.size + Δ) = ActionClose ∨
      determineAction pos.size (pos.size + Δ) = ActionReverse) →
      (v ≠ 0 →
        calculateRealizedPnL pos Δ p v (determineAction pos.size (pos.size + Δ)) = v) ∧
      (v = 0 →
        calculateRealizedPnL pos Δ p v (determineAction pos.size (pos.size + Δ)) =
          (if pos.size > 0 then p - pos.avgEntryPrice else pos.avgEntryPrice - p) *
            min |Δ| |pos.size|)) := by
  constructor
  · intro ha
    rcases ha with ha | ha <;> rw [ha] <;> simp [calculateRealizedPnL]
  · intro ha
    have hdir : (pos.size > 0 ∧ Δ < 0) ∨ (pos.size < 0 ∧ Δ > 0) := by
      rcases ha with ha | ha | ha
      · rcases determineAction_eq_reduce ha with ⟨h1, h2, _⟩ | ⟨h1, h2, _⟩
        · exact Or.inl ⟨h1, by linarith⟩
        · exact Or.inr ⟨h1, by linarith⟩
      · rcases determineAction_eq_close ha with ⟨h1, h2⟩
        rcases lt_trichotomy pos.size 0 with hs | hs | hs
        · exact Or.inr ⟨hs, by linarith⟩
        · exact absurd hs h1
        · exact Or.inl ⟨hs, by linarith⟩
      · rcases determineAction_eq_reverse ha with ⟨h1, h2⟩ | ⟨h1, h2⟩
        · exact Or.inl ⟨h1, by linarith⟩
        · exact Or.inr ⟨h1, by linarith⟩
    have hnotadd : ¬(determineAction pos.size (pos.size + Δ) = ActionAdd ∨
        determineAction pos.size (pos.size + Δ) = ActionOpen) := by
      rcases ha with ha | ha | ha <;> rw [ha] <;> simp
    constructor
    · intro hv
      unfold calculateRealizedPnL
      rw [if_neg hnotadd, if_pos]
      refine ⟨hv, ?_⟩
      tauto
    · intro hv
      unfold calculateRealizedPnL
      rw [if_neg hnotadd, if_neg (by simp [hv]), if_pos hdir, if_pos havg]
      show (if pos.size < 0 then pos.avgEntryPrice - p else p - pos.avgEntryPrice) *
          (if |Δ| > |pos.size| then |pos.size| else |Δ|) = _
      have hred : (if |Δ| > |pos.size| then |pos.size| else |Δ|) = min |Δ| |pos.size| := by
        rcases le_or_lt |Δ| |pos.size| with h | h
        · rw [if_neg (not_lt.mpr h), min_eq_left h]
        · rw [if_pos h, min_eq_right h.le]
      rcases hdir with ⟨hs, _⟩ | ⟨hs, _⟩
      · rw [if_neg (by linarith : ¬pos.size < 0), if_pos hs, hred]
      · rw [if_pos hs, if_neg (by linarith : ¬pos.size > 0), hred]

/-- Witness for C1 at a concrete input: a long of 3 units at average entry
100, reduced by 1 unit at 110 with no venue PnL, realising 10. -/
theorem claim_C1_witness :
    (0 : ℚ) <
      (Position.mk "BTC" 3 100 300 0 0 0 1).avgEntryPrice ∧
    (((determineAction (Position.mk "BTC" 3 100 300 0 0 0 1).size
        ((Position.mk "BTC" 3 100 300 0 0 0 1).size + (-1)) = ActionOpen ∨
      determineAction (Position.mk "BTC" 3 100 300 0 0 0 1).size
        ((Position.mk "BTC" 3 100 300 0 0 0 1).size + (-1)) = ActionAdd) →
      calculateRealizedPnL (Position.mk "BTC" 3 100 300 0 0 0 1) (-1) 110 0
        (determineAction (Position.mk "BTC" 3 100 300 0 0 0 1).size
          ((Position.mk "BTC" 3 100 300 0 0 0 1).size + (-1))) = 0) ∧
    ((determineAction (Position.mk "BTC" 3 100 300 0 0 0 1).size
        ((Position.mk "BTC" 3 100 300 0 0 0 1).size + (-1)) = ActionReduce ∨
      determineAction (Position.mk "BTC" 3 100 300 0 0 0 1).size
        ((Position.mk "BTC" 3 100 300 0 0 0 1).size + (-1)) = ActionClose ∨
      determineAction (Position.mk "BTC" 3 100 300 0 0 0 1).size
        ((Position.mk "BTC" 3 100 300 0 0 0 1).size + (-1)) = ActionReverse) →
      ((0 : ℚ) ≠ 0 →
        calculateRealizedPnL (Position.mk "BTC" 3 100 300 0 0 0 1) (-1) 110 0
          (determineAction (Position.mk "BTC" 3 100 300 0 0 0 1).size
            ((Position.mk "BTC" 3 100 300 0 0 0 1).size + (-1))) = 0) ∧
      ((0 : ℚ) = 0 →
        calculateRealizedPnL (Position.mk "BTC" 3 100 300 0 0 0 1) (-1) 110 0
          (determineAction (Position.mk "BTC" 3 100 300 0 0 0 1).size
            ((Position.mk "BTC" 3 100 300 0 0 0 1).size + (-1))) =
          (if (Position.mk "BTC" 3 100 300 0 0 0 1).size > 0 then
            110 - (Position.mk "BTC" 3 100 300 0 0 0 1).avgEntryPrice
          else (Position.mk "BTC" 3 100 300 0 0 0 1).avgEntryPrice - 110) *
            min |(-1 : ℚ)| |(Position.mk "BTC" 3 100 300 0 0 0 1).size|))) :=
  ⟨by norm_num,
   claim_C1_calculateRealizedPnL (Position.mk "BTC" 3 100 300 0 0 0 1) (-1) 110 0
     (by norm_num)⟩

/-- C5: a committed trade that flips the sign of a non-zero position sets
`avgEntryPrice` to exactly the trade's execution price and
`totalCostBasis` to that price times the surviving quantity. -/
theorem claim_C5_reversal_reset (now : ℚ) (pos : Position) (Δ p r : ℚ)
    (h : (pos.size > 0 ∧ pos.size + Δ < 0) ∨ (pos.size < 0 ∧ pos.size + Δ > 0)) :
    (updatePosition now pos Δ p r).avgEntryPrice = p ∧
    (updatePosition now pos Δ p r).totalCostBasis = p * |pos.size + Δ| := by
  have hnew : pos.size + Δ ≠ 0 := by rcases h with ⟨_, h2⟩ | ⟨_, h2⟩ <;> linarith
  have hold : pos.size ≠ 0 := by rcases h with ⟨h1, _⟩ | ⟨h1, _⟩ <;> linarith
  unfold updatePosition
  rw [if_neg hnew, if_neg hold, if_pos h]
  exact ⟨rfl, rfl⟩

/-- Witness for C5: a long of 2 units reversed by selling 4 units at 62000
becomes a short of 2 units priced entirely at 62000. -/
theorem claim_C5_witness :
    (((2 : ℚ) > 0 ∧ (2 : ℚ) + (-4) < 0) ∨ ((2 : ℚ) < 0 ∧ (2 : ℚ) + (-4) > 0)) ∧
    (updatePosition 7 (Position.mk "BTC" 2 53000 106000 0 0 0 2)
      (-4) 62000 0).avgEntryPrice = 62000 ∧
    (updatePosition 7 (Position.mk "BTC" 2 53000 106000 0 0 0 2)
      (-4) 62000 0).totalCostBasis = 62000 * |(2 : ℚ) + (-4)| :=
  ⟨by norm_num,
   claim_C5_reversal_reset 7 (Position.mk "BTC" 2 53000 106000 0 0 0 2) (-4) 62000 0
     (by norm_num)⟩

/-- C6: a same-direction size-decreasing trade that leaves the position
non-zero (a REDUCE transition) changes only `size`, `realizedPnL` and
`tradeCount`; `avgEntryPrice`, `totalCostBasis` and every other field are
untouched. -/
theorem claim_C6_reduce_frame (now : ℚ) (pos : Position) (Δ p r : ℚ)
    (h : (0 < pos.size + Δ ∧ pos.size + Δ < pos.size) ∨
         (pos.size < 0 ∧ pos.size < pos.size + Δ ∧ pos.size + Δ < 0)) :
    (updatePosition now pos Δ p r).avgEntryPrice = pos.avgEntryPrice ∧
    (updatePosition now pos Δ p r).totalCostBasis = pos.totalCostBasis ∧
    (updatePosition now pos Δ p r).lastPrice = pos.lastPrice ∧
    (updatePosition now pos Δ p r).openTime = pos.openTime ∧
    (updatePosition now pos Δ p r).coin = pos.coin ∧
    (updatePosition now pos Δ p r).size = pos.size + Δ ∧
    (updatePosition now pos Δ p r).realizedPnL = pos.realizedPnL + r ∧
    (updatePosition now pos Δ p r).tradeCount = pos.tradeCount + 1 := by
  have hnew : pos.size + Δ ≠ 0 := by rcases h with ⟨h1, _⟩ | ⟨_, _, h2⟩ <;> linarith
  have hold : pos.size ≠ 0 := by rcases h with ⟨h1, h2⟩ | ⟨h1, _⟩ <;> linarith
  have hflip : ¬((pos.size > 0 ∧ pos.size + Δ < 0) ∨ (pos.size < 0 ∧ pos.size + Δ > 0)) := by
    rcases h with ⟨h1, h2⟩ | ⟨h1, h2, h3⟩ <;> push_neg <;> constructor <;> intro hx <;> linarith
  have hadd : ¬((pos.size > 0 ∧ Δ > 0) ∨ (pos.size < 0 ∧ Δ < 0)) := by
    rcases h with ⟨h1, h2⟩ | ⟨h1, h2, h3⟩ <;> push_neg <;> constructor <;> intro hx <;> linarith
  unfold updatePosition
  rw [if_neg hnew, if_neg hold, if_neg hflip, if_neg hadd]
  exact ⟨rfl, rfl, rfl, rfl, rfl, rfl, rfl, rfl⟩

/-- Witness for C6: reducing a long of 3 units at average entry 160/3 by
one unit leaves the cost basis of the remaining lot untouched. -/
theorem claim_C6_witness :
    (((0 : ℚ) < 3 + (-1) ∧ (3 : ℚ) + (-1) < 3) ∨
      ((3 : ℚ) < 0 ∧ (3 : ℚ) < 3 + (-1) ∧ (3 : ℚ) + (-1) < 0)) ∧
    (updatePosition 9 (Position.mk "BTC" 3 (160/3) 160 0 0 0 2)
      (-1) 58000 4666).avgEntryPrice = 160/3 ∧
    (updatePosition 9 (Position.mk "BTC" 3 (160/3) 160 0 0 0 2)
      (-1) 58000 4666).totalCostBasis = 160 ∧
    (updatePosition 9 (Position.mk "BTC" 3 (160/3) 160 0 0 0 2)
      (-1) 58000 4666).size = 3 + (-1) ∧
    (updatePosition 9 (Position.mk "BTC" 3 (160/3) 160 0 0 0 2)
      (-1) 58000 4666).realizedPnL = 0 + 4666 ∧
    (updatePosition 9 (Position.mk "BTC" 3 (160/3) 160 0 0 0 2)
      (-1) 58000 4666).tradeCount = 2 + 1 :=
  have hmain :=
    claim_C6_reduce_frame 9 (Position.mk "BTC" 3 (160/3) 160 0 0 0 2) (-1) 58000 4666
      (by norm_num)
  ⟨by norm_num, hmain.1, hmain.2.1, hmain.2.2.2.2.2.1, hmain.2.2.2.2.2.2.1,
   hmain.2.2.2.2.2.2.2⟩

/-! ## Sequences of committed trades against one position

A committed (aggregated) trade is a quadruple
`(now, tradeSize, price, realizedPnL)` fed to `updatePosition`, exactly the
arguments `processAggregatedFills` passes on a commit. -/

/-- Apply a sequence of committed trades to one position record. -/
def applyTrades (pos : Position) (ts : List (ℚ × ℚ × ℚ × ℚ)) : Position :=
  ts.foldl (fun q t => updatePosition t.1 q t.2.1 t.2.2.1 t.2.2.2) pos

/-- VWAP inductive invariant: the position is flat or points in direction
`s` with `avgEntryPrice * |size| = totalCostBasis`. -/
def VwapInv (s : ℚ) (q : Position) : Prop :=
  (q.size = 0 ∧ q.avgEntryPrice = 0 ∧ q.totalCostBasis = 0) ∨
  (0 < s * q.size ∧ q.avgEntryPrice * |q.size| = q.totalCostBasis)

lemma vwapInv_step (s : ℚ) (q : Position) (now Δ p r : ℚ)
    (hs : s = 1 ∨ s = -1) (hΔ : 0 < s * Δ) (_hp : 0 < p) (hq : VwapInv s q) :
    VwapInv s (updatePosition now q Δ p r) := by
  have hΔ0 : Δ ≠ 0 := by
    intro h0; rw [h0, mul_zero] at hΔ; exact lt_irrefl 0 hΔ
  rcases hq with ⟨h0, ha, hc⟩ | ⟨hpos, hvw⟩
  · -- flat: the trade opens a fresh position
    have hnew : q.size + Δ ≠ 0 := by rw [h0, zero_add]; exact hΔ0
    unfold updatePosition
    rw [if_neg hnew, if_pos h0]
    refine Or.inr ⟨?_, ?_⟩
    · show 0 < s * (q.size + Δ)
      rw [h0, zero_add]; exact hΔ
    · show p * |q.size + Δ| = p * |Δ|
      rw [h0, zero_add]
  · -- open in direction s, trade adds in direction s
    have hsz : s * q.size + s * Δ > 0 := by positivity
    have hnew : q.size + Δ ≠ 0 := by
      intro h0
      have : s * (q.size + Δ) = 0 := by rw [h0, mul_zero]
      rw [mul_add] at this; linarith
    have hold : q.size ≠ 0 := by
      intro h0; rw [h0, mul_zero] at hpos; exact lt_irrefl 0 hpos
    have hsame : (q.size > 0 ∧ Δ > 0) ∨ (q.size < 0 ∧ Δ < 0) := by
      rcases hs with hs | hs <;> subst hs
      · left; constructor <;> linarith [hpos, hΔ]
      · right; constructor <;> nlinarith [hpos, hΔ]
    have hflip : ¬((q.size > 0 ∧ q.size + Δ < 0) ∨ (q.size < 0 ∧ q.size + Δ > 0)) := by
      rcases hsame with ⟨h1, h2⟩ | ⟨h1, h2⟩ <;> push_neg <;>
        exact ⟨fun hx => by linarith, fun hx => by linarith⟩
    unfold updatePosition
    rw [if_neg hnew, if_neg hold, if_neg hflip, if_pos hsame]
    refine Or.inr ⟨?_, ?_⟩
    · show 0 < s * (q.size + Δ)
      rw [mul_add]; linarith
    · show (q.totalCostBasis + p * |Δ|) / |q.size + Δ| * |q.size + Δ| =
        q.totalCostBasis + p * |Δ|
      have : |q.size + Δ| ≠ 0 := abs_ne_zero.mpr hnew
      field_simp

/-- C3: after any sequence of same-direction, size-increasing committed
trades (direction `s`, each with positive price) applied to a fresh flat
position, `avgEntryPrice * |size| = totalCostBasis` holds exactly, and in
particular `avgEntryPrice = totalCostBasis / |size|` whenever the position
is non-empty.  Exact equality in the idealised arithmetic is stronger than
the 1e-6 relative tolerance the claim allows. -/
theorem claim_C3_vwap_invariant (s t0 : ℚ) (coin : String) (ts : List (ℚ × ℚ × ℚ × ℚ))
    (hs : s = 1 ∨ s = -1) (h : ∀ t ∈ ts, 0 < s * t.2.1 ∧ 0 < t.2.2.1) :
    (applyTrades (freshPosition t0 coin) ts).avgEntryPrice *
        |(applyTrades (freshPosition t0 coin) ts).size| =
      (applyTrades (freshPosition t0 coin) ts).totalCostBasis ∧
    ((applyTrades (freshPosition t0 coin) ts).size ≠ 0 →
      (applyTrades (freshPosition t0 coin) ts).avgEntryPrice =
        (applyTrades (freshPosition t0 coin) ts).totalCostBasis /
          |(applyTrades (freshPosition t0 coin) ts).size|) := by
  have key : ∀ (l : List (ℚ × ℚ × ℚ × ℚ)) (q : Position), VwapInv s q →
      (∀ t ∈ l, 0 < s * t.2.1 ∧ 0 < t.2.2.1) → VwapInv s (applyTrades q l) := by
    intro l
    induction l with
    | nil => intro q hq _; exact hq
    | cons t l ih =>
      intro q hq hl
      have ht := hl t (List.mem_cons_self t l)
      have hrest : ∀ u ∈ l, 0 < s * u.2.1 ∧ 0 < u.2.2.1 :=
        fun u hu => hl u (List.mem_cons_of_mem t hu)
      exact ih _ (vwapInv_step s q t.1 t.2.1 t.2.2.1 t.2.2.2 hs ht.1 ht.2 hq) hrest
  have hinit : VwapInv s (freshPosition t0 coin) := Or.inl ⟨rfl, rfl, rfl⟩
  rcases key ts (freshPosition t0 coin) hinit h with ⟨h0, ha, hc⟩ | ⟨hpos, hvw⟩
  · constructor
    · rw [h0, ha, hc, abs_zero, zero_mul]
    · intro hne; exact absurd h0 hne
  · constructor
    · exact hvw
    · intro hne
      have : |(applyTrades (freshPosition t0 coin) ts).size| ≠ 0 := abs_ne_zero.mpr hne
      field_simp [hvw.symm]

/-- Witness for C3, Scenario A: buy 2.0 at 50000 then 1.0 at 60000; the
resulting 3-unit long has `avgEntryPrice = 160000/3` and cost basis
160000, and the VWAP identity holds. -/
theorem claim_C3_witness :
    ((1 : ℚ) = 1 ∨ (1 : ℚ) = -1) ∧
    (applyTrades (freshPosition 0 "BTC") [(1, 2, 50000, 0), (2, 1, 60000, 0)]).avgEntryPrice *
        |(applyTrades (freshPosition 0 "BTC") [(1, 2, 50000, 0), (2, 1, 60000, 0)]).size| =
      (applyTrades (freshPosition 0 "BTC") [(1, 2, 50000, 0), (2, 1, 60000, 0)]).totalCostBasis ∧
    ((applyTrades (freshPosition 0 "BTC") [(1, 2, 50000, 0), (2, 1, 60000, 0)]).size ≠ 0 →
      (applyTrades (freshPosition 0 "BTC") [(1, 2, 50000, 0), (2, 1, 60000, 0)]).avgEntryPrice =
        (applyTrades (freshPosition 0 "BTC") [(1, 2, 50000, 0), (2, 1, 60000, 0)]).totalCostBasis /
          |(applyTrades (freshPosition 0 "BTC") [(1, 2, 50000, 0), (2, 1, 60000, 0)]).size|) :=
  ⟨Or.inl rfl,
   claim_C3_vwap_invariant 1 0 "BTC" [(1, 2, 50000, 0), (2, 1, 60000, 0)]
     (Or.inl rfl) (by intro t ht; fin_cases ht <;> norm_num)⟩

/-- Flat inductive invariant: a flat position has zero average entry and
cost basis, a non-flat one has strictly positive average entry and cost
basis (given that every committed price is positive). -/
def FlatInv (q : Position) : Prop :=
  (q.size = 0 → q.avgEntryPrice = 0 ∧ q.totalCostBasis = 0) ∧
  (q.size ≠ 0 → 0 < q.avgEntryPrice ∧ 0 < q.totalCostBasis)

lemma flatInv_step (q : Position) (now Δ p r : ℚ) (hp : 0 < p) (hq : FlatInv q) :
    FlatInv (updatePosition now q Δ p r) := by
  simp only [updatePosition]
  split_ifs with h1 h2 h3 h4
  · -- fully closed
    exact ⟨fun _ => ⟨rfl, rfl⟩, fun hne => absurd h1 hne⟩
  · -- new position: tradeSize = newSize is non-zero
    have hΔ : Δ ≠ 0 := by
      intro h0; rw [h2, h0, add_zero] at h1; exact h1 rfl
    refine ⟨fun hne => absurd hne h1, fun _ => ⟨hp, ?_⟩⟩
    show 0 < p * |Δ|
    have : 0 < |Δ| := abs_pos.mpr hΔ
    positivity
  · -- reversal
    refine ⟨fun hne => absurd hne h1, fun _ => ⟨hp, ?_⟩⟩
    show 0 < p * |q.size + Δ|
    have : 0 < |q.size + Δ| := abs_pos.mpr h1
    positivity
  · -- adding to the position
    have hΔ : Δ ≠ 0 := by rcases h4 with ⟨_, h⟩ | ⟨_, h⟩ <;> linarith
    have hold : q.size ≠ 0 := h2
    have hc : 0 < q.totalCostBasis := (hq.2 hold).2
    have habs : 0 < |Δ| := abs_pos.mpr hΔ
    have hcost : 0 < q.totalCostBasis + p * |Δ| := by positivity
    refine ⟨fun hne => absurd hne h1, fun _ => ⟨?_, hcost⟩⟩
    show 0 < (q.totalCostBasis + p * |Δ|) / |q.size + Δ|
    have : 0 < |q.size + Δ| := abs_pos.mpr h1
    positivity
  · -- reduction: fields kept
    have hold : q.size ≠ 0 := h2
    exact ⟨fun hne => absurd hne h1, fun _ => ⟨(hq.2 hold).1, (hq.2 hold).2⟩⟩

/-- C4: for every position reachable from the fresh (flat) record by any
sequence of committed trades with positive prices, the three conditions
`size = 0`, `avgEntryPrice = 0` and `totalCostBasis = 0` are equivalent. -/
theorem claim_C4_flat_invariant (t0 : ℚ) (coin : String) (ts : List (ℚ × ℚ × ℚ × ℚ))
    (h : ∀ t ∈ ts, 0 < t.2.2.1) :
    ((applyTrades (freshPosition t0 coin) ts).size = 0 ↔
      (applyTrades (freshPosition t0 coin) ts).avgEntryPrice = 0) ∧
    ((applyTrades (freshPosition t0 coin) ts).avgEntryPrice = 0 ↔
      (applyTrades (freshPosition t0 coin) ts).totalCostBasis = 0) := by
  have key : ∀ (l : List (ℚ × ℚ × ℚ × ℚ)) (q : Position), FlatInv q →
      (∀ t ∈ l, 0 < t.2.2.1) → FlatInv (applyTrades q l) := by
    intro l
    induction l with
    | nil => intro q hq _; exact hq
    | cons t l ih =>
      intro q hq hl
      exact ih _ (flatInv_step q t.1 t.2.1 t.2.2.1 t.2.2.2
          (hl t (List.mem_cons_self t l)) hq)
        (fun u hu => hl u (List.mem_cons_of_mem t hu))
  have hinit : FlatInv (freshPosition t0 coin) :=
    ⟨fun _ => ⟨rfl, rfl⟩, fun hne => absurd rfl hne⟩
  rcases key ts (freshPosition t0 coin) hinit h with ⟨hflat, hopen⟩
  by_cases hz : (applyTrades (freshPosition t0 coin) ts).size = 0
  · rcases hflat hz with ⟨ha, hc⟩
    exact ⟨⟨fun _ => ha, fun _ => hz⟩, ⟨fun _ => hc, fun _ => ha⟩⟩
  · rcases hopen hz with ⟨ha, hc⟩
    exact ⟨⟨fun h0 => absurd h0 hz, fun h0 => absurd h0 (ne_of_gt ha)⟩,
      ⟨fun h0 => absurd h0 (ne_of_gt ha), fun h0 => absurd h0 (ne_of_gt hc)⟩⟩

/-- Witness for C4: open 2 units at 50000, close them at 51000 — the flat
position again has zero average entry and cost basis. -/
theorem claim_C4_witness :
    (∀ t ∈ [((1 : ℚ), (2 : ℚ), (50000 : ℚ), (0 : ℚ)), (2, -2, 51000, 2000)], 0 < t.2.2.1) ∧
    (((applyTrades (freshPosition 0 "BTC") [(1, 2, 50000, 0), (2, -2, 51000, 2000)]).size = 0 ↔
      (applyTrades (freshPosition 0 "BTC")
        [(1, 2, 50000, 0), (2, -2, 51000, 2000)]).avgEntryPrice = 0) ∧
    ((applyTrades (freshPosition 0 "BTC")
        [(1, 2, 50000, 0), (2, -2, 51000, 2000)]).avgEntryPrice = 0 ↔
      (applyTrades (freshPosition 0 "BTC")
        [(1, 2, 50000, 0), (2, -2, 51000, 2000)]).totalCostBasis = 0)) :=
  ⟨by intro t ht; fin_cases ht <;> norm_num,
   claim_C4_flat_invariant 0 "BTC" [(1, 2, 50000, 0), (2, -2, 51000, 2000)]
     (by intro t ht; fin_cases ht <;> norm_num)⟩

/-! ## The session accumulator state machine

`PaperTrader` with `ProcessFill`, the fill aggregator and the persistence
hooks, translated from the source.  The mutex serialises every call, so a
run is a fold of `processFill` over a list of `(now, fill)` pairs. -/

/-- Accumulator of the aggregation loop at the top of
`processAggregatedFills`. -/
structure Agg where
  totalSize : ℚ
  totalValue : ℚ
  totalClosedPnL : ℚ
  lastPrice : ℚ
  side : String
  lastTime : ℤ
  deriving Repr, DecidableEq

/-- One iteration of the aggregation loop: side "A" (sell) negates the
size; `totalValue` accumulates `|size| * price`; a `closedPnl` that fails
to parse contributes nothing. -/
def aggStep (a : Agg) (f : Fill) : Agg :=
  let size := if f.side = "A" then -f.size else f.size
  { totalSize := a.totalSize + size
    totalValue := a.totalValue + |size| * f.price
    totalClosedPnL := a.totalClosedPnL + (match f.closedPnl with | some c => c | none => 0)
    lastPrice := f.price
    side := f.side
    lastTime := f.time }

/-- The aggregation loop of `processAggregatedFills` over a pending batch. -/
def aggregateFills (fills : List Fill) : Agg :=
  fills.foldl aggStep ⟨0, 0, 0, 0, "", 0⟩

/-- The volume-weighted average price `totalValue / math.Abs(totalSize)` of
a committed batch.  In IEEE float64 a non-empty batch of positive-size,
positive-price fills has `totalValue > 0`, so a zero net size makes the Go
quotient `+Inf` — a value `ℚ` cannot represent.  The parameter `pad` stands
for that non-finite value; the theorems below show the accounting state
never depends on it, and `priceFinite` in the trade record tracks whether
the Go value is finite. -/
def batchAvgPrice (pad : ℚ) (a : Agg) : ℚ :=
  if a.totalSize = 0 then pad else a.totalValue / |a.totalSize|

/-- The per-position sub-record of an account snapshot
(`SaveAccount`, `storage.go`): size, avg price, last price, realized,
unrealized, market value. -/
structure AccountPosRec where
  size : ℚ
  avgPrice : ℚ
  lastPrice : ℚ
  realized : ℚ
  unrealized : ℚ
  marketVal : ℚ
  deriving Repr, DecidableEq

/-- A record written by the storage layer (`storage.go`): either one line
of the daily fills file or one line of the daily accounts file. -/
inductive SRec where
  | fillRec (timeMs : ℚ) (coin side : String) (size price : ℚ) (action : String)
      (realizedPnl unrealizedPnl volumeUsd : ℚ)
  | accountRec (timeMs totalPnl realizedPnl : ℚ)
      (positions : List (String × AccountPosRec)) (numTrades : ℕ)
  deriving Repr, DecidableEq

/-- The file-system outcome oracle: whether appending a given record to a
given file succeeds.  `os.MkdirAll`, `json.Marshal`, `os.OpenFile` and
`WriteString` failures all collapse into the oracle answering `false`. -/
def FsOracle : Type := String → SRec → Bool

/-- A persistence-hook invocation made by the core after a commit. -/
inductive PersistCall where
  | saveFill (fill : Fill) (action : String) (realizedPnL unrealizedPnL : ℚ)
  | saveAccount
  deriving Repr, DecidableEq

/-- `appendJSON(filename, data)`: appends one record, returning the
records actually written; every failure is swallowed (the Go function
returns nothing and ignores all errors). -/
def appendJSON (fs : FsOracle) (filename : String) (rec : SRec) : List (String × SRec) :=
  if fs filename rec then [(filename, rec)] else []

/-- The session accumulator (struct `PaperTrader`).  The Go maps with
zero-value defaults become total functions; `Positions`, whose entries the
claims sum over, is an association list.  `bankroll`, `leverage` and
`baseNotional` are the capital-guard fields the test files construct the
trader with (`bankroll_test.go`, the dynamic-sizing tests); the file
defining the guard itself is absent from the repository. -/
structure PaperTrader where
  positions : List (String × Position)
  totalRealizedPnL : ℚ
  totalTrades : ℕ
  startTime : ℚ
  tradeHistory : List PaperTrade
  lastTradeTime : String → Option ℚ
  pendingFills : String → List Fill
  pendingVolume : String → ℚ
  lastVolumeUpdate : String → Option ℚ
  minTradeInterval : ℚ
  volumeThreshold : ℚ
  volumeDecayRate : ℚ
  bankroll : ℚ
  leverage : ℚ
  baseNotional : ℚ

/-- A freshly constructed trader: empty maps and history, zero totals;
interval, threshold, decay rate and the capital-guard parameters are the
construction inputs (`NewPaperTrader` fixes 60 s / 1000 / 0.5,
`NewTestPaperTrader` 1 ms / 0 / 0.5, the tests use struct literals). -/
def mkPaperTrader (start interval threshold rate bank lev base : ℚ) : PaperTrader :=
  { positions := []
    totalRealizedPnL := 0
    totalTrades := 0
    startTime := start
    tradeHistory := []
    lastTradeTime := fun _ => none
    pendingFills := fun _ => []
    pendingVolume := fun _ => 0
    lastVolumeUpdate := fun _ => none
    minTradeInterval := interval
    volumeThreshold := threshold
    volumeDecayRate := rate
    bankroll := bank
    leverage := lev
    baseNotional := base }

/-- First-match lookup in the positions list (`pt.Positions[coin]`). -/
def lookupPos : List (String × Position) → String → Option Position
  | [], _ => none
  | (k, v) :: rest, c => if k = c then some v else lookupPos rest c

/-- Insert-or-replace in the positions list (`pt.Positions[coin] = pos`). -/
def upsertPos : List (String × Position) → String → Position → List (String × Position)
  | [], c, v => [(c, v)]
  | (k, w) :: rest, c, v =>
      if k = c then (c, v) :: rest else (k, w) :: upsertPos rest c v

/-- `getPosition(coin)`: the stored position, or the lazily created fresh
record. -/
def oldPositionOf (now : ℚ) (pt : PaperTrader) (coin : String) : Position :=
  match lookupPos pt.positions coin with
  | some p => p
  | none => freshPosition now coin

/-- `applyVolumeDecay(coin)`, translated branch by branch: no decay before
10 s have elapsed since accumulation started; decay factor
`powQ (1 - decayRate) minutes` models `math.Pow`; a decayed volume below
the absolute floor 1.0 clears volume, buffer and start time. -/
def applyVolumeDecay (powQ : ℚ → ℚ → ℚ) (now : ℚ) (pt : PaperTrader) (coin : String) :
    PaperTrader :=
  match pt.lastVolumeUpdate coin with
  | none => pt
  | some lastUpdate =>
    if pt.pendingVolume coin = 0 then pt
    else
      let elapsed := now - lastUpdate
      if elapsed < 10 then pt
      else
        let minutes := elapsed / 60
        let decayFactor := powQ (1 - pt.volumeDecayRate) minutes
        let v := pt.pendingVolume coin * decayFactor
        if v < 1 then
          { pt with
            pendingVolume := fun c => if c = coin then 0 else pt.pendingVolume c
            pendingFills := fun c => if c = coin then [] else pt.pendingFills c
            lastVolumeUpdate := fun c => if c = coin then none else pt.lastVolumeUpdate c }
        else
          { pt with
            pendingVolume := fun c => if c = coin then v else pt.pendingVolume c }

/-- The aggregate of the pending batch for a coin. -/
def batchAgg (pt : PaperTrader) (coin : String) : Agg :=
  aggregateFills (pt.pendingFills coin)

/-- The realized PnL computed on a commit
(`pt.calculateRealizedPnL(position, totalSize, avgPrice, totalClosedPnL, action)`). -/
def commitRealized (pad now : ℚ) (pt : PaperTrader) (coin : String) : ℚ :=
  calculateRealizedPnL (oldPositionOf now pt coin) (batchAgg pt coin).totalSize
    (batchAvgPrice pad (batchAgg pt coin)) (batchAgg pt coin).totalClosedPnL
    (determineAction (oldPositionOf now pt coin).size
      ((oldPositionOf now pt coin).size + (batchAgg pt coin).totalSize))

/-- The position after a commit: `updatePosition` followed by the
`position.LastPrice = lastPrice` assignment. -/
def commitPosition (pad now : ℚ) (pt : PaperTrader) (coin : String) : Position :=
  { updatePosition now (oldPositionOf now pt coin) (batchAgg pt coin).totalSize
      (batchAvgPrice pad (batchAgg pt coin)) (commitRealized pad now pt coin) with
    lastPrice := (batchAgg pt coin).lastPrice }

/-- The `PaperTrade` record appended on a commit. -/
def commitTrade (pad now : ℚ) (pt : PaperTrader) (coin : String) : PaperTrade :=
  { timestamp := (batchAgg pt coin).lastTime
    coin := coin
    action := (determineAction (oldPositionOf now pt coin).size
      ((oldPositionOf now pt coin).size + (batchAgg pt coin).totalSize)).str
    side := if (batchAgg pt coin).side = "B" then "BUY"
            else if (batchAgg pt coin).side = "A" then "SELL" else ""
    size := |(batchAgg pt coin).totalSize|
    price := batchAvgPrice pad (batchAgg pt coin)
    priceFinite := decide ((batchAgg pt coin).totalSize ≠ 0)
    realizedPnL := commitRealized pad now pt coin
    positionSize := (commitPosition pad now pt coin).size
    unrealizedPnL := calculateUnrealizedPnL (commitPosition pad now pt coin) }

/-- `SaveFill` (`storage.go`): skipped entirely when `VolumeThreshold` is
zero (test mode); otherwise one appended fills-file record.  Returns the
records actually written; no error channel exists. -/
def SaveFill (fs : FsOracle) (now : ℚ) (pt : PaperTrader) (fill : Fill) (action : String)
    (realizedPnL unrealizedPnL : ℚ) : List (String × SRec) :=
  if pt.volumeThreshold = 0 then []
  else appendJSON fs "fills"
    (SRec.fillRec now fill.coin fill.side fill.size fill.price action
      realizedPnL unrealizedPnL (fill.size * fill.price))

/-- `SaveAccount` (`storage.go`): skipped when `VolumeThreshold` is zero;
otherwise one appended accounts-file record snapshotting every non-flat
position. -/
def SaveAccount (fs : FsOracle) (now : ℚ) (pt : PaperTrader) : List (String × SRec) :=
  if pt.volumeThreshold = 0 then []
  else
    let act := pt.positions.filter (fun e => e.2.size ≠ 0)
    let totalUnrealized := (act.map (fun e => calculateUnrealizedPnL e.2)).sum
    appendJSON fs "accounts"
      (SRec.accountRec now (pt.totalRealizedPnL + totalUnrealized) pt.totalRealizedPnL
        (act.map (fun e =>
          (e.1, AccountPosRec.mk e.2.size e.2.avgEntryPrice e.2.lastPrice e.2.realizedPnL
            (calculateUnrealizedPnL e.2) (e.2.size * e.2.lastPrice))))
        pt.totalTrades)

/-- The body of `processAggregatedFills` past the empty-batch early
return: aggregate, classify, compute realized PnL, update the ledger,
update totals, append the trade record, clear the pending state, then
invoke the persistence hooks.  Returns the new state, the persistence
calls made, and the records the storage layer actually wrote. -/
def commitFills (pad : ℚ) (fs : FsOracle) (now : ℚ) (pt : PaperTrader) (coin : String) :
    PaperTrader × List PersistCall × List (String × SRec) :=
  let trade := commitTrade pad now pt coin
  let pt1 : PaperTrader := { pt with
    positions := upsertPos pt.positions coin (commitPosition pad now pt coin)
    totalTrades := pt.totalTrades + 1
    totalRealizedPnL := pt.totalRealizedPnL + commitRealized pad now pt coin
    tradeHistory := pt.tradeHistory ++ [trade]
    lastTradeTime := fun c => if c = coin then some now else pt.lastTradeTime c
    pendingFills := fun c => if c = coin then [] else pt.pendingFills c
    pendingVolume := fun c => if c = coin then 0 else pt.pendingVolume c
    lastVolumeUpdate := fun c => if c = coin then none else pt.lastVolumeUpdate c }
  let calls := (pt.pendingFills coin).map (fun f =>
    PersistCall.saveFill f trade.action trade.realizedPnL trade.unrealizedPnL) ++
    [PersistCall.saveAccount]
  let written := ((pt.pendingFills coin).map (fun f =>
    SaveFill fs now pt1 f trade.action trade.realizedPnL trade.unrealizedPnL)).flatten ++
    SaveAccount fs now pt1
  (pt1, calls, written)

/-- `processAggregatedFills(coin)`: early return on an empty batch,
otherwise the commit body. -/
def processAggregatedFills (pad : ℚ) (fs : FsOracle) (now : ℚ) (pt : PaperTrader)
    (coin : String) : PaperTrader × List PersistCall × List (String × SRec) :=
  if pt.pendingFills coin = [] then (pt, [], [])
  else commitFills pad fs now pt coin

/-- The commit-trigger test at the end of `ProcessFill`:
`shouldProcessByVolume` when the pending volume reaches the threshold,
`shouldProcessByTime` when volume is pending and the accumulation start
time is at least `MinTradeInterval` old; on either, commit the batch. -/
def processFillCommitCheck (pad : ℚ) (fs : FsOracle) (now : ℚ) (pt4 : PaperTrader)
    (coin : String) : PaperTrader × List PersistCall × List (String × SRec) :=
  if decide (pt4.pendingVolume coin ≥ pt4.volumeThreshold) ||
      (decide (pt4.pendingVolume coin > 0) &&
        (match pt4.lastVolumeUpdate coin with
         | some t => decide (now - t ≥ pt4.minTradeInterval)
         | none => false)) then
    processAggregatedFills pad fs now pt4 coin
  else (pt4, [], [])

/-- Appending the incoming fill to its coin's pending buffer (the first
mutation `ProcessFill` performs, before decay is applied). -/
def appendPendingFill (pt : PaperTrader) (fill : Fill) : PaperTrader :=
  { pt with
    pendingFills := fun c =>
      if c = fill.coin then pt.pendingFills fill.coin ++ [fill] else pt.pendingFills c }

/-- Adding the new fill's dollar volume `size * price` to the pending
volume (after decay). -/
def addFillVolume (pt2 : PaperTrader) (fill : Fill) : PaperTrader :=
  { pt2 with
    pendingVolume := fun c =>
      if c = fill.coin then pt2.pendingVolume fill.coin + fill.size * fill.price
      else pt2.pendingVolume c }

/-- Recording when volume accumulation started, if not already tracked. -/
def recordVolumeStart (now : ℚ) (pt3 : PaperTrader) (coin : String) : PaperTrader :=
  if (pt3.lastVolumeUpdate coin).isSome then pt3
  else { pt3 with
    lastVolumeUpdate := fun c =>
      if c = coin then some now else pt3.lastVolumeUpdate c }

/-- `ProcessFill(fill)`, translated step by step: skip zero-size fills,
append to the pending buffer, apply volume decay, add the new fill's
dollar volume, record the accumulation start time if absent, then commit
when the volume threshold or the time threshold is met. -/
def processFill (pad : ℚ) (powQ : ℚ → ℚ → ℚ) (fs : FsOracle) (now : ℚ)
    (pt : PaperTrader) (fill : Fill) :
    PaperTrader × List PersistCall × List (String × SRec) :=
  if fill.size = 0 then (pt, [], [])
  else
    processFillCommitCheck pad fs now
      (recordVolumeStart now
        (addFillVolume (applyVolumeDecay powQ now (appendPendingFill pt fill) fill.coin) fill)
        fill.coin)
      fill.coin

/-- A whole session: fold `processFill` over a list of `(now, fill)`
pairs starting from a given state (the mutex serialises all calls). -/
def runFills (pad : ℚ) (powQ : ℚ → ℚ → ℚ) (fs : FsOracle) (pt : PaperTrader)
    (l : List (ℚ × Fill)) : PaperTrader :=
  l.foldl (fun s x => (processFill pad powQ fs x.1 s x.2).1) pt

/-! ## C2: conservation of realized PnL -/

/-- Sum of the realized PnL recorded in the trade history. -/
def sumHist (l : List PaperTrade) : ℚ := (l.map (fun t => t.realizedPnL)).sum

/-- Sum of `position.RealizedPnL` across the positions map. -/
def sumRealized (m : List (String × Position)) : ℚ :=
  (m.map (fun e => e.2.realizedPnL)).sum

/-- The realized PnL currently stored for a coin (0 when absent). -/
def storedRealized (m : List (String × Position)) (c : String) : ℚ :=
  match lookupPos m c with
  | some p => p.realizedPnL
  | none => 0

lemma updatePosition_realizedPnL (now : ℚ) (q : Position) (Δ p r : ℚ) :
    (updatePosition now q Δ p r).realizedPnL = q.realizedPnL + r := by
  simp only [updatePosition]
  split_ifs <;> rfl

lemma commitPosition_realizedPnL (pad now : ℚ) (pt : PaperTrader) (coin : String) :
    (commitPosition pad now pt coin).realizedPnL =
      storedRealized pt.positions coin + commitRealized pad now pt coin := by
  have h1 : (commitPosition pad now pt coin).realizedPnL =
      (oldPositionOf now pt coin).realizedPnL + commitRealized pad now pt coin := by
    simp only [commitPosition]
    rw [updatePosition_realizedPnL]
  rw [h1]
  unfold oldPositionOf storedRealized
  cases lookupPos pt.positions coin <;> rfl

lemma sumRealized_upsert (m : List (String × Position)) (c : String) (v : Position) :
    sumRealized (upsertPos m c v) = sumRealized m + v.realizedPnL - storedRealized m c := by
  induction m with
  | nil => simp [upsertPos, sumRealized, storedRealized, lookupPos]
  | cons e rest ih =>
    by_cases hk : e.1 = c
    · simp [upsertPos, hk, sumRealized, storedRealized, lookupPos]
      ring
    · simp only [upsertPos, if_neg hk, sumRealized, List.map_cons, List.sum_cons,
        storedRealized, lookupPos] at ih ⊢
      rw [ih]
      ring

/-- The conservation invariant of claim C2. -/
def ConservInv (pt : PaperTrader) : Prop :=
  sumHist pt.tradeHistory = sumRealized pt.positions ∧
  sumRealized pt.positions = pt.totalRealizedPnL

lemma conservInv_commitFills (pad : ℚ) (fs : FsOracle) (now : ℚ) (pt : PaperTrader)
    (coin : String) (h : ConservInv pt) :
    ConservInv (commitFills pad fs now pt coin).1 := by
  obtain ⟨h1, h2⟩ := h
  constructor
  · show sumHist (pt.tradeHistory ++ [commitTrade pad now pt coin]) =
      sumRealized (upsertPos pt.positions coin (commitPosition pad now pt coin))
    rw [sumRealized_upsert, commitPosition_realizedPnL]
    unfold sumHist at h1 ⊢
    simp only [List.map_append, List.sum_append, List.map_cons, List.sum_cons,
      List.map_nil, List.sum_nil]
    rw [h1]
    show sumRealized pt.positions + ((commitTrade pad now pt coin).realizedPnL + 0) = _
    have : (commitTrade pad now pt coin).realizedPnL = commitRealized pad now pt coin := rfl
    rw [this]
    ring
  · show sumRealized (upsertPos pt.positions coin (commitPosition pad now pt coin)) =
      pt.totalRealizedPnL + commitRealized pad now pt coin
    rw [sumRealized_upsert, commitPosition_realizedPnL, h2]
    ring

lemma conservInv_applyVolumeDecay (powQ : ℚ → ℚ → ℚ) (now : ℚ) (pt : PaperTrader)
    (coin : String) (h : ConservInv pt) :
    ConservInv (applyVolumeDecay powQ now pt coin) := by
  unfold applyVolumeDecay
  cases pt.lastVolumeUpdate coin with
  | none => exact h
  | some t =>
    dsimp only
    split_ifs <;> exact h

lemma conservInv_processFillCommitCheck (pad : ℚ) (fs : FsOracle) (now : ℚ)
    (pt4 : PaperTrader) (coin : String) (h : ConservInv pt4) :
    ConservInv (processFillCommitCheck pad fs now pt4 coin).1 := by
  unfold processFillCommitCheck
  split_ifs with hc
  · unfold processAggregatedFills
    split_ifs with he
    · exact h
    · exact conservInv_commitFills pad fs now pt4 coin h
  · exact h

lemma conservInv_processFill (pad : ℚ) (powQ : ℚ → ℚ → ℚ) (fs : FsOracle) (now : ℚ)
    (pt : PaperTrader) (fill : Fill) (h : ConservInv pt) :
    ConservInv (processFill pad powQ fs now pt fill).1 := by
  unfold processFill
  by_cases hz : fill.size = 0
  · rw [if_pos hz]; exact h
  · rw [if_neg hz]
    have h1 : ConservInv (appendPendingFill pt fill) := h
    have h2 := conservInv_applyVolumeDecay powQ now _ fill.coin h1
    have h3 : ConservInv (addFillVolume
        (applyVolumeDecay powQ now (appendPendingFill pt fill) fill.coin) fill) := h2
    have h4 : ConservInv (recordVolumeStart now (addFillVolume
        (applyVolumeDecay powQ now (appendPendingFill pt fill) fill.coin) fill) fill.coin) := by
      unfold recordVolumeStart
      split_ifs
      · exact h3
      · exact h3
    exact conservInv_processFillCommitCheck pad fs now _ fill.coin h4

/-- C2: for every fill sequence processed through `ProcessFill` from a
fresh trader, the realized PnL summed over the trade history, the realized
PnL summed over the positions map, and `TotalRealizedPnL` all coincide. -/
theorem claim_C2_conservation (pad : ℚ) (powQ : ℚ → ℚ → ℚ) (fs : FsOracle)
    (start interval threshold rate bank lev base : ℚ) (l : List (ℚ × Fill)) :
    sumHist (runFills pad powQ fs
        (mkPaperTrader start interval threshold rate bank lev base) l).tradeHistory =
      sumRealized (runFills pad powQ fs
        (mkPaperTrader start interval threshold rate bank lev base) l).positions ∧
    sumRealized (runFills pad powQ fs
        (mkPaperTrader start interval threshold rate bank lev base) l).positions =
      (runFills pad powQ fs
        (mkPaperTrader start interval threshold rate bank lev base) l).totalRealizedPnL := by
  have key : ∀ (l : List (ℚ × Fill)) (s : PaperTrader), ConservInv s →
      ConservInv (runFills pad powQ fs s l) := by
    intro l
    induction l with
    | nil => intro s hs; exact hs
    | cons x rest ih =>
      intro s hs
      exact ih _ (conservInv_processFill pad powQ fs x.1 s x.2 hs)
  exact key l (mkPaperTrader start interval threshold rate bank lev base)
    ⟨rfl, rfl⟩

/-! ## C9: pending buffer vs pending volume -/

lemma applyVolumeDecay_ne (powQ : ℚ → ℚ → ℚ) (now : ℚ) (pt : PaperTrader)
    (coin c : String) (hc : c ≠ coin) :
    (applyVolumeDecay powQ now pt coin).pendingFills c = pt.pendingFills c ∧
    (applyVolumeDecay powQ now pt coin).pendingVolume c = pt.pendingVolume c := by
  unfold applyVolumeDecay
  cases pt.lastVolumeUpdate coin with
  | none => exact ⟨rfl, rfl⟩
  | some t =>
    dsimp only
    split_ifs <;> simp [hc]

lemma applyVolumeDecay_nonneg (powQ : ℚ → ℚ → ℚ) (now : ℚ) (pt : PaperTrader)
    (coin : String) (h : 0 ≤ pt.pendingVolume coin) :
    0 ≤ (applyVolumeDecay powQ now pt coin).pendingVolume coin := by
  unfold applyVolumeDecay
  cases pt.lastVolumeUpdate coin with
  | none => exact h
  | some t =>
    dsimp only
    split_ifs with h1 h2 h3
    · exact h
    · exact h
    · simp
    · show (0 : ℚ) ≤ if coin = coin then pt.pendingVolume coin *
        powQ (1 - pt.volumeDecayRate) ((now - t) / 60) else pt.pendingVolume coin
      rw [if_pos rfl]
      linarith [not_lt.mp h3]

/-- The two pending-state facts that survive the decay bug: volume is
never negative, and a non-empty buffer always has positive volume. -/
def PendInv (pt : PaperTrader) : Prop :=
  ∀ c, 0 ≤ pt.pendingVolume c ∧ (pt.pendingFills c ≠ [] → 0 < pt.pendingVolume c)

lemma pendInv_commitFills (pad : ℚ) (fs : FsOracle) (now : ℚ) (pt : PaperTrader)
    (coin : String) (h : PendInv pt) :
    PendInv (commitFills pad fs now pt coin).1 := by
  intro c
  by_cases hc : c = coin
  · subst hc
    constructor
    · show (0 : ℚ) ≤ if c = c then 0 else pt.pendingVolume c
      rw [if_pos rfl]
    · intro hne
      exact absurd (by rw [if_pos rfl] : (if c = c then ([] : List Fill)
        else pt.pendingFills c) = []) hne
  · constructor
    · show (0 : ℚ) ≤ if c = coin then 0 else pt.pendingVolume c
      rw [if_neg hc]
      exact (h c).1
    · intro hne
      rw [show (commitFills pad fs now pt coin).1.pendingFills c = pt.pendingFills c
        from if_neg hc] at hne
      show (0 : ℚ) < if c = coin then 0 else pt.pendingVolume c
      rw [if_neg hc]
      exact (h c).2 hne

lemma pendInv_processFillCommitCheck (pad : ℚ) (fs : FsOracle) (now : ℚ)
    (pt4 : PaperTrader) (coin : String) (h : PendInv pt4) :
    PendInv (processFillCommitCheck pad fs now pt4 coin).1 := by
  unfold processFillCommitCheck
  split_ifs with hc
  · unfold processAggregatedFills
    split_ifs with he
    · exact h
    · exact pendInv_commitFills pad fs now pt4 coin h
  · exact h

lemma pendInv_processFill (pad : ℚ) (powQ : ℚ → ℚ → ℚ) (fs : FsOracle) (now : ℚ)
    (pt : PaperTrader) (fill : Fill) (hsz : 0 ≤ fill.size) (hpr : 0 < fill.price)
    (h : PendInv pt) :
    PendInv (processFill pad powQ fs now pt fill).1 := by
  unfold processFill
  by_cases hz : fill.size = 0
  · rw [if_pos hz]; exact h
  · rw [if_neg hz]
    have hszpos : 0 < fill.size := lt_of_le_of_ne hsz (Ne.symm hz)
    have h3 : PendInv (addFillVolume
        (applyVolumeDecay powQ now (appendPendingFill pt fill) fill.coin) fill) := by
      intro c
      have hv3 : (addFillVolume
          (applyVolumeDecay powQ now (appendPendingFill pt fill) fill.coin) fill).pendingVolume
            c =
          if c = fill.coin then
            (applyVolumeDecay powQ now (appendPendingFill pt fill) fill.coin).pendingVolume
              fill.coin + fill.size * fill.price
          else (applyVolumeDecay powQ now (appendPendingFill pt fill)
            fill.coin).pendingVolume c := rfl
      have hf3 : (addFillVolume
          (applyVolumeDecay powQ now (appendPendingFill pt fill) fill.coin) fill).pendingFills
            c =
          (applyVolumeDecay powQ now (appendPendingFill pt fill) fill.coin).pendingFills c :=
        rfl
      by_cases hc : c = fill.coin
      · have hvol2 : 0 ≤ (applyVolumeDecay powQ now (appendPendingFill pt fill)
            fill.coin).pendingVolume fill.coin :=
          applyVolumeDecay_nonneg powQ now (appendPendingFill pt fill) fill.coin
            ((h fill.coin).1)
        have hpos : (0 : ℚ) < (applyVolumeDecay powQ now (appendPendingFill pt fill)
            fill.coin).pendingVolume fill.coin + fill.size * fill.price := by
          positivity
        constructor
        · rw [hv3, if_pos hc]; linarith
        · intro _
          rw [hv3, if_pos hc]; exact hpos
      · obtain ⟨hfills2, hvol2⟩ :=
          applyVolumeDecay_ne powQ now (appendPendingFill pt fill) fill.coin c hc
        constructor
        · rw [hv3, if_neg hc, hvol2]
          exact (h c).1
        · intro hne
          rw [hv3, if_neg hc, hvol2]
          apply (h c).2
          rw [hf3, hfills2] at hne
          rwa [show (appendPendingFill pt fill).pendingFills c = pt.pendingFills c from
            if_neg hc] at hne
    have h4 : PendInv (recordVolumeStart now (addFillVolume
        (applyVolumeDecay powQ now (appendPendingFill pt fill) fill.coin) fill) fill.coin) := by
      unfold recordVolumeStart
      split_ifs
      · exact h3
      · exact h3
    exact pendInv_processFillCommitCheck pad fs now _ fill.coin h4


/-- A concrete stand-in for `math.Pow` used by the concrete runs: exact on
the non-negative integer exponents they exercise (IEEE `math.Pow(b, 1)`
is exactly `b`). -/
def powFloor (b m : ℚ) : ℚ := b ^ (⌊m⌋.toNat)

/-- C9 (amended): in every state reachable from a fresh trader by fills of
non-negative size and positive price, a non-empty pending buffer implies
strictly positive pending volume, and a decay that drops the pending
volume below the absolute floor 1.0 clears volume, buffer and start time
entirely.  (The converse of the first part is false — see the
counterexample: a decay-clear inside `ProcessFill` drops the just-appended
fill from the buffer while its dollar volume is re-added afterwards,
leaving positive volume over an empty buffer.) -/
theorem claim_C9_amended :
    (∀ (pad : ℚ) (powQ : ℚ → ℚ → ℚ) (fs : FsOracle)
        (start interval threshold rate bank lev base : ℚ) (l : List (ℚ × Fill))
        (coin : String),
      (∀ x ∈ l, 0 ≤ x.2.size ∧ 0 < x.2.price) →
      ((runFills pad powQ fs (mkPaperTrader start interval threshold rate bank lev base)
          l).pendingFills coin ≠ [] →
        0 < (runFills pad powQ fs
          (mkPaperTrader start interval threshold rate bank lev base) l).pendingVolume coin)) ∧
    (∀ (powQ : ℚ → ℚ → ℚ) (now : ℚ) (pt : PaperTrader) (coin : String) (t : ℚ),
      pt.lastVolumeUpdate coin = some t →
      pt.pendingVolume coin ≠ 0 →
      ¬(now - t < 10) →
      pt.pendingVolume coin * powQ (1 - pt.volumeDecayRate) ((now - t) / 60) < 1 →
      (applyVolumeDecay powQ now pt coin).pendingVolume coin = 0 ∧
      (applyVolumeDecay powQ now pt coin).pendingFills coin = [] ∧
      (applyVolumeDecay powQ now pt coin).lastVolumeUpdate coin = none) := by
  constructor
  · intro pad powQ fs start interval threshold rate bank lev base l coin hl
    have key : ∀ (l : List (ℚ × Fill)) (s : PaperTrader), PendInv s →
        (∀ x ∈ l, 0 ≤ x.2.size ∧ 0 < x.2.price) → PendInv (runFills pad powQ fs s l) := by
      intro l
      induction l with
      | nil => intro s hs _; exact hs
      | cons x rest ih =>
        intro s hs hx
        exact ih _ (pendInv_processFill pad powQ fs x.1 s x.2
            (hx x (List.mem_cons_self x rest)).1 (hx x (List.mem_cons_self x rest)).2 hs)
          (fun u hu => hx u (List.mem_cons_of_mem x hu))
    exact (key l (mkPaperTrader start interval threshold rate bank lev base)
      (fun c => ⟨le_refl 0, fun hne => absurd rfl hne⟩) hl coin).2
  · intro powQ now pt coin t ht hv hel hfloor
    unfold applyVolumeDecay
    rw [ht]
    dsimp only
    rw [if_neg hv, if_neg hel, if_pos hfloor]
    exact ⟨if_pos rfl, if_pos rfl, if_pos rfl⟩

/-- Witness for C9 (amended): a single small buy (2 units at price 1)
stays buffered with positive volume; and a concrete decayed state
(volume 1.9, one minute old, decay rate 0.5) is cleared entirely. -/
theorem claim_C9_amended_witness :
    (0 < (runFills 0 powFloor (fun _ _ => false) (mkPaperTrader 0 60 1000 (1/2) 0 0 0)
      [(0, Fill.mk "BTC" "B" 2 1 0 (some 0))]).pendingVolume "BTC") ∧
    ((applyVolumeDecay powFloor 60
        { mkPaperTrader 0 60 1000 (1/2) 0 0 0 with
          pendingVolume := fun _ => 19/10
          lastVolumeUpdate := fun _ => some 0 } "BTC").pendingVolume "BTC" = 0 ∧
      (applyVolumeDecay powFloor 60
        { mkPaperTrader 0 60 1000 (1/2) 0 0 0 with
          pendingVolume := fun _ => 19/10
          lastVolumeUpdate := fun _ => some 0 } "BTC").pendingFills "BTC" = [] ∧
      (applyVolumeDecay powFloor 60
        { mkPaperTrader 0 60 1000 (1/2) 0 0 0 with
          pendingVolume := fun _ => 19/10
          lastVolumeUpdate := fun _ => some 0 } "BTC").lastVolumeUpdate "BTC" = none) :=
  ⟨claim_C9_amended.1 0 powFloor (fun _ _ => false) 0 60 1000 (1/2) 0 0 0
      [(0, Fill.mk "BTC" "B" 2 1 0 (some 0))] "BTC"
      (by intro x hx; fin_cases hx <;> norm_num)
      (by norm_num [runFills, processFill, processFillCommitCheck, processAggregatedFills,
        commitFills, applyVolumeDecay, appendPendingFill, addFillVolume, recordVolumeStart,
        mkPaperTrader, powFloor]),
   claim_C9_amended.2 powFloor 60
      { mkPaperTrader 0 60 1000 (1/2) 0 0 0 with
        pendingVolume := fun _ => 19/10
        lastVolumeUpdate := fun _ => some 0 } "BTC" 0
      rfl (by norm_num) (by norm_num)
      (by norm_num [mkPaperTrader, powFloor])⟩

set_option maxHeartbeats 1000000 in
/-- Counterexample to C9 as stated: with threshold 1000, interval 60 s and
decay rate 0.5, a 1.9-dollar fill followed 60 s later by a 50-dollar fill
triggers the decay-clear (1.9 x 0.5 = 0.95 < 1.0) which drops both
buffered fills — including the one just appended — after which the new
fill's volume is still added, leaving pending volume 50 > 0 over an empty
buffer: the claimed equivalence fails. -/
theorem claim_C9_counterexample :
    (runFills 0 powFloor (fun _ _ => true) (mkPaperTrader 0 60 1000 (1/2) 0 0 0)
      [(0, Fill.mk "BTC" "B" (19/10) 1 0 (some 0)),
       (60, Fill.mk "BTC" "B" 1 50 60000 (some 0))]).pendingFills "BTC" = [] ∧
    0 < (runFills 0 powFloor (fun _ _ => true) (mkPaperTrader 0 60 1000 (1/2) 0 0 0)
      [(0, Fill.mk "BTC" "B" (19/10) 1 0 (some 0)),
       (60, Fill.mk "BTC" "B" 1 50 60000 (some 0))]).pendingVolume "BTC" := by
  norm_num [runFills, processFill, processFillCommitCheck, processAggregatedFills,
    commitFills, applyVolumeDecay, appendPendingFill, addFillVolume, recordVolumeStart,
    mkPaperTrader, powFloor]

/-! ## C8: non-finite values

`pad` stands for the non-finite IEEE quotient of a zero-net batch (see
`batchAvgPrice`).  The lemmas below show the accounting state is the same
for every choice of `pad` — the non-finite value reaches nothing but the
recorded trade price. -/

/-- Erase the one field of a trade record that can carry the non-finite
batch VWAP. -/
def scrubTrade (t : PaperTrade) : PaperTrade := { t with price := 0 }

lemma determineAction_self (s : ℚ) : determineAction s s = ActionAdd := by
  unfold determineAction
  split_ifs with h1 h2 h3 h4 h5
  · exact absurd h1.1 h1.2
  · exact absurd h2.2 h2.1
  · exfalso; rcases h3 with ⟨a, b⟩ | ⟨a, b⟩ <;> linarith
  · exfalso; rcases h4 with ⟨a, b⟩ | ⟨a, b⟩ <;> linarith
  · exfalso; rcases h5 with ⟨a, b, c⟩ | ⟨a, b, c⟩ <;> linarith
  · rfl

lemma calculateRealizedPnL_add (pos : Position) (Δ p v : ℚ) :
    calculateRealizedPnL pos Δ p v ActionAdd = 0 := by
  simp [calculateRealizedPnL]

lemma updatePosition_price_irrel (now : ℚ) (q : Position) (p1 p2 r : ℚ) :
    updatePosition now q 0 p1 r = updatePosition now q 0 p2 r := by
  simp only [updatePosition]
  by_cases h0 : q.size + 0 = 0
  · rw [if_pos h0, if_pos h0]
  · rw [if_neg h0, if_neg h0]
    have h1 : ¬q.size = 0 := by intro h; rw [h] at h0; exact h0 (by ring)
    rw [if_neg h1, if_neg h1]
    have hflip : ¬((q.size > 0 ∧ q.size + 0 < 0) ∨ (q.size < 0 ∧ q.size + 0 > 0)) := by
      rintro (⟨a, b⟩ | ⟨a, b⟩) <;> linarith
    rw [if_neg hflip, if_neg hflip]
    have hadd : ¬((q.size > 0 ∧ (0 : ℚ) > 0) ∨ (q.size < 0 ∧ (0 : ℚ) < 0)) := by
      rintro (⟨a, b⟩ | ⟨a, b⟩) <;> linarith
    rw [if_neg hadd, if_neg hadd]

lemma commitRealized_pad (pad1 pad2 now : ℚ) (pt : PaperTrader) (coin : String) :
    commitRealized pad1 now pt coin = commitRealized pad2 now pt coin := by
  by_cases h : (batchAgg pt coin).totalSize = 0
  · unfold commitRealized
    rw [h]
    have ha : determineAction (oldPositionOf now pt coin).size
        ((oldPositionOf now pt coin).size + 0) = ActionAdd := by
      rw [add_zero]; exact determineAction_self _
    rw [ha, calculateRealizedPnL_add, calculateRealizedPnL_add]
  · unfold commitRealized batchAvgPrice
    rw [if_neg h, if_neg h]

lemma commitPosition_pad (pad1 pad2 now : ℚ) (pt : PaperTrader) (coin : String) :
    commitPosition pad1 now pt coin = commitPosition pad2 now pt coin := by
  by_cases h : (batchAgg pt coin).totalSize = 0
  · unfold commitPosition
    rw [commitRealized_pad pad1 pad2, h]
    rw [updatePosition_price_irrel now _ (batchAvgPrice pad1 (batchAgg pt coin))
      (batchAvgPrice pad2 (batchAgg pt coin))]
  · unfold commitPosition batchAvgPrice
    rw [commitRealized_pad pad1 pad2, if_neg h, if_neg h]

lemma commitTrade_scrub_pad (pad1 pad2 now : ℚ) (pt : PaperTrader) (coin : String) :
    scrubTrade (commitTrade pad1 now pt coin) = scrubTrade (commitTrade pad2 now pt coin) := by
  unfold scrubTrade commitTrade
  simp only [commitRealized_pad pad1 pad2 now pt coin, commitPosition_pad pad1 pad2 now pt coin]

/-- Two states that agree everywhere except possibly on the recorded trade
prices (the only field that can carry the non-finite VWAP). -/
def Agree (s1 s2 : PaperTrader) : Prop :=
  ∃ H, s2 = { s1 with tradeHistory := H } ∧
    s1.tradeHistory.map scrubTrade = H.map scrubTrade

lemma agree_refl (s : PaperTrader) : Agree s s := ⟨s.tradeHistory, rfl, rfl⟩

lemma batchAgg_hist (s : PaperTrader) (H : List PaperTrade) (coin : String) :
    batchAgg { s with tradeHistory := H } coin = batchAgg s coin := rfl

lemma commitRealized_hist (pad now : ℚ) (s : PaperTrader) (H : List PaperTrade)
    (coin : String) :
    commitRealized pad now { s with tradeHistory := H } coin =
      commitRealized pad now s coin := rfl

lemma commitPosition_hist (pad now : ℚ) (s : PaperTrader) (H : List PaperTrade)
    (coin : String) :
    commitPosition pad now { s with tradeHistory := H } coin =
      commitPosition pad now s coin := rfl

lemma commitTrade_hist (pad now : ℚ) (s : PaperTrader) (H : List PaperTrade)
    (coin : String) :
    commitTrade pad now { s with tradeHistory := H } coin =
      commitTrade pad now s coin := rfl

lemma agree_commitFills (pad1 pad2 : ℚ) (fs : FsOracle) (now : ℚ) (s : PaperTrader)
    (H : List PaperTrade) (coin : String)
    (hh : s.tradeHistory.map scrubTrade = H.map scrubTrade) :
    Agree (commitFills pad1 fs now s coin).1
      (commitFills pad2 fs now { s with tradeHistory := H } coin).1 := by
  refine ⟨H ++ [commitTrade pad2 now s coin], ?_, ?_⟩
  · show ({ { s with tradeHistory := H } with
        positions := upsertPos s.positions coin
          (commitPosition pad2 now { s with tradeHistory := H } coin)
        totalTrades := s.totalTrades + 1
        totalRealizedPnL := s.totalRealizedPnL +
          commitRealized pad2 now { s with tradeHistory := H } coin
        tradeHistory := H ++ [commitTrade pad2 now { s with tradeHistory := H } coin]
        lastTradeTime := fun c => if c = coin then some now else s.lastTradeTime c
        pendingFills := fun c => if c = coin then [] else s.pendingFills c
        pendingVolume := fun c => if c = coin then 0 else s.pendingVolume c
        lastVolumeUpdate := fun c => if c = coin then none
          else s.lastVolumeUpdate c } : PaperTrader) = _
    rw [commitPosition_hist, commitRealized_hist, commitTrade_hist,
      commitPosition_pad pad2 pad1 now s coin, commitRealized_pad pad2 pad1 now s coin]
    rfl
  · show (s.tradeHistory ++ [commitTrade pad1 now s coin]).map scrubTrade =
      (H ++ [commitTrade pad2 now s coin]).map scrubTrade
    rw [List.map_append, List.map_append, hh,
      show [commitTrade pad1 now s coin].map scrubTrade =
        [scrubTrade (commitTrade pad1 now s coin)] from rfl,
      show [commitTrade pad2 now s coin].map scrubTrade =
        [scrubTrade (commitTrade pad2 now s coin)] from rfl,
      commitTrade_scrub_pad pad1 pad2 now s coin]

lemma agree_processAggregatedFills (pad1 pad2 : ℚ) (fs : FsOracle) (now : ℚ)
    (s : PaperTrader) (H : List PaperTrade) (coin : String)
    (hh : s.tradeHistory.map scrubTrade = H.map scrubTrade) :
    Agree (processAggregatedFills pad1 fs now s coin).1
      (processAggregatedFills pad2 fs now { s with tradeHistory := H } coin).1 := by
  unfold processAggregatedFills
  by_cases he : s.pendingFills coin = []
  · rw [if_pos he,
      if_pos (show ({ s with tradeHistory := H } : PaperTrader).pendingFills coin = [] from he)]
    exact ⟨H, rfl, hh⟩
  · rw [if_neg he,
      if_neg (show ¬({ s with tradeHistory := H } : PaperTrader).pendingFills coin = []
        from he)]
    exact agree_commitFills pad1 pad2 fs now s H coin hh

lemma agree_processFillCommitCheck (pad1 pad2 : ℚ) (fs : FsOracle) (now : ℚ)
    (s : PaperTrader) (H : List PaperTrade) (coin : String)
    (hh : s.tradeHistory.map scrubTrade = H.map scrubTrade) :
    Agree (processFillCommitCheck pad1 fs now s coin).1
      (processFillCommitCheck pad2 fs now { s with tradeHistory := H } coin).1 := by
  have hR : processFillCommitCheck pad2 fs now { s with tradeHistory := H } coin =
      (if decide (s.pendingVolume coin ≥ s.volumeThreshold) ||
          (decide (s.pendingVolume coin > 0) &&
            (match s.lastVolumeUpdate coin with
             | some t => decide (now - t ≥ s.minTradeInterval)
             | none => false)) then
        processAggregatedFills pad2 fs now { s with tradeHistory := H } coin
      else ({ s with tradeHistory := H }, [], [])) := rfl
  rw [hR]
  unfold processFillCommitCheck
  split_ifs with hc
  · exact agree_processAggregatedFills pad1 pad2 fs now s H coin hh
  · exact ⟨H, rfl, hh⟩

lemma appendPendingFill_hist (s : PaperTrader) (H : List PaperTrade) (fill : Fill) :
    appendPendingFill { s with tradeHistory := H } fill =
      { appendPendingFill s fill with tradeHistory := H } := rfl

lemma addFillVolume_hist (s : PaperTrader) (H : List PaperTrade) (fill : Fill) :
    addFillVolume { s with tradeHistory := H } fill =
      { addFillVolume s fill with tradeHistory := H } := rfl

lemma applyVolumeDecay_hist (powQ : ℚ → ℚ → ℚ) (now : ℚ) (s : PaperTrader)
    (H : List PaperTrade) (coin : String) :
    applyVolumeDecay powQ now { s with tradeHistory := H } coin =
      { applyVolumeDecay powQ now s coin with tradeHistory := H } := by
  unfold applyVolumeDecay
  dsimp only
  cases s.lastVolumeUpdate coin with
  | none => rfl
  | some t =>
    dsimp only
    split_ifs <;> rfl

lemma recordVolumeStart_hist (now : ℚ) (s : PaperTrader) (H : List PaperTrade)
    (coin : String) :
    recordVolumeStart now { s with tradeHistory := H } coin =
      { recordVolumeStart now s coin with tradeHistory := H } := by
  unfold recordVolumeStart
  dsimp only
  split_ifs <;> rfl

lemma applyVolumeDecay_tradeHistory (powQ : ℚ → ℚ → ℚ) (now : ℚ) (pt : PaperTrader)
    (coin : String) :
    (applyVolumeDecay powQ now pt coin).tradeHistory = pt.tradeHistory := by
  unfold applyVolumeDecay
  cases pt.lastVolumeUpdate coin with
  | none => rfl
  | some t =>
    dsimp only
    split_ifs <;> rfl

lemma agree_processFill (pad1 pad2 : ℚ) (powQ : ℚ → ℚ → ℚ) (fs : FsOracle) (now : ℚ)
    (fill : Fill) (s1 s2 : PaperTrader) (h : Agree s1 s2) :
    Agree (processFill pad1 powQ fs now s1 fill).1
      (processFill pad2 powQ fs now s2 fill).1 := by
  obtain ⟨H, rfl, hh⟩ := h
  unfold processFill
  by_cases hz : fill.size = 0
  · rw [if_pos hz, if_pos hz]
    exact ⟨H, rfl, hh⟩
  · rw [if_neg hz, if_neg hz]
    rw [appendPendingFill_hist s1 H fill,
      applyVolumeDecay_hist powQ now (appendPendingFill s1 fill) H fill.coin,
      addFillVolume_hist (applyVolumeDecay powQ now (appendPendingFill s1 fill) fill.coin)
        H fill,
      recordVolumeStart_hist now
        (addFillVolume (applyVolumeDecay powQ now (appendPendingFill s1 fill) fill.coin) fill)
        H fill.coin]
    have hhist : (recordVolumeStart now (addFillVolume (applyVolumeDecay powQ now
        (appendPendingFill s1 fill) fill.coin) fill) fill.coin).tradeHistory =
        s1.tradeHistory := by
      unfold recordVolumeStart
      split_ifs
      · exact applyVolumeDecay_tradeHistory powQ now (appendPendingFill s1 fill) fill.coin
      · exact applyVolumeDecay_tradeHistory powQ now (appendPendingFill s1 fill) fill.coin
    exact agree_processFillCommitCheck pad1 pad2 fs now _ H fill.coin
      (by rw [hhist]; exact hh)

/-- C8 (amended): no position field, total, or recorded realized or
unrealized PnL ever depends on the non-finite quotient of a zero-net
batch — any two runs differing only in the value standing for that
quotient (`pad`) agree on positions, totals, and every trade-record field
except the recorded price — and the batch VWAP is finite exactly when the
batch's signed sizes do not net to zero, in which case it is the exact
ratio `totalValue / |totalSize|`.  (A batch netting to zero does occur and
yields a non-finite VWAP stored as the trade's price — see the
counterexample.) -/
theorem claim_C8_amended :
    (∀ (pad1 pad2 : ℚ) (powQ : ℚ → ℚ → ℚ) (fs : FsOracle)
        (start interval threshold rate bank lev base : ℚ) (l : List (ℚ × Fill)),
      (runFills pad1 powQ fs (mkPaperTrader start interval threshold rate bank lev base)
          l).positions =
        (runFills pad2 powQ fs (mkPaperTrader start interval threshold rate bank lev base)
          l).positions ∧
      (runFills pad1 powQ fs (mkPaperTrader start interval threshold rate bank lev base)
          l).totalRealizedPnL =
        (runFills pad2 powQ fs (mkPaperTrader start interval threshold rate bank lev base)
          l).totalRealizedPnL ∧
      (runFills pad1 powQ fs (mkPaperTrader start interval threshold rate bank lev base)
          l).tradeHistory.map scrubTrade =
        (runFills pad2 powQ fs (mkPaperTrader start interval threshold rate bank lev base)
          l).tradeHistory.map scrubTrade) ∧
    (∀ (pad now : ℚ) (pt : PaperTrader) (coin : String),
      ((commitTrade pad now pt coin).priceFinite = true ↔
        (batchAgg pt coin).totalSize ≠ 0) ∧
      ((batchAgg pt coin).totalSize ≠ 0 →
        (commitTrade pad now pt coin).price =
          (batchAgg pt coin).totalValue / |(batchAgg pt coin).totalSize|)) := by
  constructor
  · intro pad1 pad2 powQ fs start interval threshold rate bank lev base l
    have key : ∀ (l : List (ℚ × Fill)) (s1 s2 : PaperTrader), Agree s1 s2 →
        Agree (runFills pad1 powQ fs s1 l) (runFills pad2 powQ fs s2 l) := by
      intro l
      induction l with
      | nil => intro s1 s2 hs; exact hs
      | cons x rest ih =>
        intro s1 s2 hs
        exact ih _ _ (agree_processFill pad1 pad2 powQ fs x.1 x.2 s1 s2 hs)
    obtain ⟨H, heq, hh⟩ := key l
      (mkPaperTrader start interval threshold rate bank lev base)
      (mkPaperTrader start interval threshold rate bank lev base)
      (agree_refl (mkPaperTrader start interval threshold rate bank lev base))
    refine ⟨?_, ?_, ?_⟩
    · rw [heq]
    · rw [heq]
    · rw [heq]; exact hh
  · intro pad now pt coin
    constructor
    · show decide ((batchAgg pt coin).totalSize ≠ 0) = true ↔
        (batchAgg pt coin).totalSize ≠ 0
      exact decide_eq_true_iff
    · intro h
      show batchAvgPrice pad (batchAgg pt coin) =
        (batchAgg pt coin).totalValue / |(batchAgg pt coin).totalSize|
      unfold batchAvgPrice
      rw [if_neg h]

/-- Witness for C8 (amended): a one-fill batch (buy 1 at 100) has a finite
VWAP equal to 100, and two runs over the empty fill list agree.  -/
theorem claim_C8_amended_witness :
    (runFills 7 powFloor (fun _ _ => true) (mkPaperTrader 0 60 1000 (1/2) 0 0 0)
        []).positions =
      (runFills 9 powFloor (fun _ _ => true) (mkPaperTrader 0 60 1000 (1/2) 0 0 0)
        []).positions ∧
    (commitTrade 0 5
        { mkPaperTrader 0 60 1000 (1/2) 0 0 0 with
          pendingFills := fun _ => [Fill.mk "BTC" "B" 1 100 0 (some 0)] }
        "BTC").priceFinite = true ∧
    (commitTrade 0 5
        { mkPaperTrader 0 60 1000 (1/2) 0 0 0 with
          pendingFills := fun _ => [Fill.mk "BTC" "B" 1 100 0 (some 0)] }
        "BTC").price =
      (batchAgg { mkPaperTrader 0 60 1000 (1/2) 0 0 0 with
          pendingFills := fun _ => [Fill.mk "BTC" "B" 1 100 0 (some 0)] }
        "BTC").totalValue /
        |(batchAgg { mkPaperTrader 0 60 1000 (1/2) 0 0 0 with
            pendingFills := fun _ => [Fill.mk "BTC" "B" 1 100 0 (some 0)] }
          "BTC").totalSize| :=
  ⟨(claim_C8_amended.1 7 9 powFloor (fun _ _ => true) 0 60 1000 (1/2) 0 0 0 []).1,
   (claim_C8_amended.2 0 5
      { mkPaperTrader 0 60 1000 (1/2) 0 0 0 with
        pendingFills := fun _ => [Fill.mk "BTC" "B" 1 100 0 (some 0)] } "BTC").1.mpr
     (by norm_num [batchAgg, aggregateFills, aggStep, mkPaperTrader,
        show ("B" : String) ≠ "A" by decide]),
   (claim_C8_amended.2 0 5
      { mkPaperTrader 0 60 1000 (1/2) 0 0 0 with
        pendingFills := fun _ => [Fill.mk "BTC" "B" 1 100 0 (some 0)] } "BTC").2
     (by norm_num [batchAgg, aggregateFills, aggStep, mkPaperTrader,
        show ("B" : String) ≠ "A" by decide])⟩

set_option maxHeartbeats 1000000 in
/-- Counterexample to C8 as stated: a buy of 0.01 at 50000 followed by a
sell of 0.01 at 50000 reaches the 1000-dollar volume threshold and commits
as one batch whose signed sizes net to exactly zero; the committed VWAP
`totalValue / |totalSize| = 1000 / 0` is non-finite (`+Inf` in the Go
float64 arithmetic), recorded in the trade record — its finiteness tracker
is `false`. -/
theorem claim_C8_counterexample :
    (runFills 0 powFloor (fun _ _ => true) (mkPaperTrader 0 60 1000 (1/2) 0 0 0)
      [(0, Fill.mk "BTC" "B" (1/100) 50000 0 (some 0)),
       (1, Fill.mk "BTC" "A" (1/100) 50000 1000 (some 0))]).tradeHistory.map
        PaperTrade.priceFinite = [false] := by
  norm_num [runFills, processFill, processFillCommitCheck, processAggregatedFills,
    commitFills, commitTrade, commitPosition, commitRealized, batchAgg, aggregateFills,
    aggStep, batchAvgPrice, oldPositionOf, lookupPos, freshPosition, updatePosition,
    determineAction, calculateRealizedPnL, calculateUnrealizedPnL, upsertPos,
    applyVolumeDecay, appendPendingFill, addFillVolume, recordVolumeStart,
    mkPaperTrader, powFloor, PositionAction.str, List.cons_ne_nil,
    show ("B" : String) ≠ "A" by decide, show ("A" : String) ≠ "B" by decide]

/-! ## C10: the persistence hook -/

/-- C10: after a commit the core calls `SaveFill(fill, action, realizedPnL,
unrealizedPnL)` once per fill of the batch followed by `SaveAccount`, and
the accounting state returned by `ProcessFill` is the same under every
file-system outcome — storage failures are swallowed inside the
collaborator (which has no error channel) and never reach the caller. -/
theorem claim_C10_persistence :
    (∀ (pad : ℚ) (powQ : ℚ → ℚ → ℚ) (fs1 fs2 : FsOracle) (now : ℚ) (pt : PaperTrader)
        (fill : Fill),
      (processFill pad powQ fs1 now pt fill).1 = (processFill pad powQ fs2 now pt fill).1) ∧
    (∀ (pad : ℚ) (fs : FsOracle) (now : ℚ) (pt : PaperTrader) (coin : String),
      pt.pendingFills coin ≠ [] →
      (processAggregatedFills pad fs now pt coin).2.1 =
        (pt.pendingFills coin).map (fun f =>
          PersistCall.saveFill f (commitTrade pad now pt coin).action
            (commitTrade pad now pt coin).realizedPnL
            (commitTrade pad now pt coin).unrealizedPnL) ++
        [PersistCall.saveAccount]) := by
  constructor
  · intro pad powQ fs1 fs2 now pt fill
    unfold processFill
    by_cases hz : fill.size = 0
    · rw [if_pos hz, if_pos hz]
    · rw [if_neg hz, if_neg hz]
      unfold processFillCommitCheck
      split_ifs with hc
      · unfold processAggregatedFills
        split_ifs with he
        · rfl
        · rfl
      · rfl
  · intro pad fs now pt coin h
    unfold processAggregatedFills
    rw [if_neg h]
    rfl

/-- Witness for C10: a trader with one buffered buy of 1 at 100 emits
exactly the `SaveFill` call for that fill followed by `SaveAccount`, and
the post-commit state is the same under an always-failing and an
always-succeeding file system. -/
theorem claim_C10_witness :
    (processFill 0 powFloor (fun _ _ => true) 0 (mkPaperTrader 0 60 1000 (1/2) 0 0 0)
        (Fill.mk "BTC" "B" 1 100 0 (some 0))).1 =
      (processFill 0 powFloor (fun _ _ => false) 0 (mkPaperTrader 0 60 1000 (1/2) 0 0 0)
        (Fill.mk "BTC" "B" 1 100 0 (some 0))).1 ∧
    (processAggregatedFills 0 (fun _ _ => false) 5
        ({ mkPaperTrader 0 60 1000 (1/2) 0 0 0 with
          pendingFills := fun _ => [Fill.mk "BTC" "B" 1 100 0 (some 0)] }) "BTC").2.1 =
      (({ mkPaperTrader 0 60 1000 (1/2) 0 0 0 with
          pendingFills := fun _ => [Fill.mk "BTC" "B" 1 100 0 (some 0)] } :
            PaperTrader).pendingFills "BTC").map (fun f =>
          PersistCall.saveFill f
            (commitTrade 0 5
              ({ mkPaperTrader 0 60 1000 (1/2) 0 0 0 with
                pendingFills := fun _ => [Fill.mk "BTC" "B" 1 100 0 (some 0)] }) "BTC").action
            (commitTrade 0 5
              ({ mkPaperTrader 0 60 1000 (1/2) 0 0 0 with
                pendingFills := fun _ => [Fill.mk "BTC" "B" 1 100 0 (some 0)] }) "BTC").realizedPnL
            (commitTrade 0 5
              ({ mkPaperTrader 0 60 1000 (1/2) 0 0 0 with
                pendingFills := fun _ => [Fill.mk "BTC" "B" 1 100 0 (some 0)] }) "BTC").unrealizedPnL) ++
        [PersistCall.saveAccount] :=
  ⟨claim_C10_persistence.1 0 powFloor (fun _ _ => true) (fun _ _ => false) 0
      (mkPaperTrader 0 60 1000 (1/2) 0 0 0) (Fill.mk "BTC" "B" 1 100 0 (some 0)),
   claim_C10_persistence.2 0 (fun _ _ => false) 5
      ({ mkPaperTrader 0 60 1000 (1/2) 0 0 0 with
        pendingFills := fun _ => [Fill.mk "BTC" "B" 1 100 0 (some 0)] }) "BTC"
      (by norm_num [mkPaperTrader])⟩

/-! ## C7: capital and exposure guard (dynamic sizing)

The file implementing the guard is absent from the repository; only its
tests (`TestCalculateDynamicTradeSize`, `TestCalculateAvailableCapital`,
`bankroll_test.go`) and the spec describe it.  The definitions below are
therefore modelled from the spec and validated against the test vectors. -/

/-- Modelled from the spec: `calculateAvailableCapital` (missing from the
repository; only its tests remain) — `availableCapital = bankroll +
totalRealizedPnL + Σ(unrealizedPnL over all open positions)`. -/
def calculateAvailableCapital (pt : PaperTrader) : ℚ :=
  pt.bankroll + pt.totalRealizedPnL +
    ((pt.positions.filter (fun e => e.2.size ≠ 0)).map
      (fun e => calculateUnrealizedPnL e.2)).sum

/-- Modelled from the spec: `currentExposure = Σ(|position.size| ×
position.lastPrice over all open positions)` (part of the missing guard). -/
def currentExposure (pt : PaperTrader) : ℚ :=
  ((pt.positions.filter (fun e => e.2.size ≠ 0)).map
    (fun e => |e.2.size| * e.2.lastPrice)).sum

/-- Modelled from the spec: `calculateDynamicTradeSize` (missing from the
repository; only its tests remain) — `remainingCapacity = maxExposure −
currentExposure`; sized quantity `min(B, max(remainingCapacity, 0)) /
price`, 0 when `remainingCapacity ≤ 0`. -/
def calculateDynamicTradeSize (pt : PaperTrader) (fill : Fill) : ℚ :=
  if calculateAvailableCapital pt * pt.leverage - currentExposure pt ≤ 0 then 0
  else min pt.baseNotional (calculateAvailableCapital pt * pt.leverage - currentExposure pt) /
    fill.price

/-- Modelled from the spec: the abort of a commit whose dynamically sized
quantity is zero (§4.6 step 3 of the missing guard integration) — no
ledger mutation, no trade record, pending buffers still cleared. -/
def abortCommitClearPending (pt : PaperTrader) (coin : String) : PaperTrader :=
  { pt with
    pendingFills := fun c => if c = coin then [] else pt.pendingFills c
    pendingVolume := fun c => if c = coin then 0 else pt.pendingVolume c
    lastVolumeUpdate := fun c => if c = coin then none else pt.lastVolumeUpdate c }

/-- C7: `calculateDynamicTradeSize` returns
`min(B, max(maxExposure − currentExposure, 0)) / fill.price` with
`maxExposure = (bankroll + totalRealizedPnL + Σ unrealized) × leverage` and
`currentExposure = Σ |size × lastPrice|`; when the remaining capacity is
non-positive it returns 0 and the aborted commit leaves positions, trade
history and totals untouched while clearing the pending buffers. -/
theorem claim_C7_dynamic_sizing (pt : PaperTrader) (fill : Fill) (coin : String)
    (hB : 0 ≤ pt.baseNotional) (hlast : ∀ e ∈ pt.positions, 0 ≤ e.2.lastPrice) :
    calculateDynamicTradeSize pt fill =
      min pt.baseNotional
        (max ((pt.bankroll + pt.totalRealizedPnL +
            ((pt.positions.filter (fun e => e.2.size ≠ 0)).map
              (fun e => calculateUnrealizedPnL e.2)).sum) * pt.leverage -
          ((pt.positions.filter (fun e => e.2.size ≠ 0)).map
            (fun e => |e.2.size * e.2.lastPrice|)).sum) 0) / fill.price ∧
    (calculateAvailableCapital pt * pt.leverage - currentExposure pt ≤ 0 →
      calculateDynamicTradeSize pt fill = 0 ∧
      (abortCommitClearPending pt coin).positions = pt.positions ∧
      (abortCommitClearPending pt coin).tradeHistory = pt.tradeHistory ∧
      (abortCommitClearPending pt coin).totalRealizedPnL = pt.totalRealizedPnL ∧
      (abortCommitClearPending pt coin).totalTrades = pt.totalTrades ∧
      (abortCommitClearPending pt coin).pendingFills coin = [] ∧
      (abortCommitClearPending pt coin).pendingVolume coin = 0) := by
  have hexp : ((pt.positions.filter (fun e => e.2.size ≠ 0)).map
      (fun e => |e.2.size * e.2.lastPrice|)).sum = currentExposure pt := by
    unfold currentExposure
    refine congrArg List.sum (List.map_congr_left ?_)
    intro e he
    have hm : e ∈ pt.positions := (List.mem_filter.mp he).1
    rw [abs_mul, abs_of_nonneg (hlast e hm)]
  constructor
  · rw [hexp]
    show calculateDynamicTradeSize pt fill =
      min pt.baseNotional
        (max (calculateAvailableCapital pt * pt.leverage - currentExposure pt) 0) / fill.price
    unfold calculateDynamicTradeSize
    by_cases hrem : calculateAvailableCapital pt * pt.leverage - currentExposure pt ≤ 0
    · rw [if_pos hrem, max_eq_right hrem, min_eq_right hB, zero_div]
    · rw [if_neg hrem, max_eq_left (le_of_lt (lt_of_not_ge hrem))]
  · intro hrem
    refine ⟨?_, rfl, rfl, rfl, rfl, if_pos rfl, if_pos rfl⟩
    unfold calculateDynamicTradeSize
    rw [if_pos hrem]

/-- Witness for C7, the over-capacity case of the dynamic-sizing test: a
0.4 BTC position marked at 50000 fills the 20000 exposure ceiling
(bankroll 10000, leverage 2), so a new fill at 4000 sizes to 0 and the
commit aborts without touching the ledger. -/
theorem claim_C7_witness :
    ((0 : ℚ) ≤ ({ mkPaperTrader 0 60 1000 (1/2) 10000 2 1000 with
        positions := [("BTC", Position.mk "BTC" (2/5) 50000 20000 0 50000 0 1)] } :
          PaperTrader).baseNotional) ∧
    (calculateDynamicTradeSize
        ({ mkPaperTrader 0 60 1000 (1/2) 10000 2 1000 with
          positions := [("BTC", Position.mk "BTC" (2/5) 50000 20000 0 50000 0 1)] })
        (Fill.mk "ETH" "B" 10 4000 0 (some 0)) = 0 ∧
      (abortCommitClearPending
        ({ mkPaperTrader 0 60 1000 (1/2) 10000 2 1000 with
          positions := [("BTC", Position.mk "BTC" (2/5) 50000 20000 0 50000 0 1)] })
        "ETH").positions =
        ({ mkPaperTrader 0 60 1000 (1/2) 10000 2 1000 with
          positions := [("BTC", Position.mk "BTC" (2/5) 50000 20000 0 50000 0 1)] } :
            PaperTrader).positions ∧
      (abortCommitClearPending
        ({ mkPaperTrader 0 60 1000 (1/2) 10000 2 1000 with
          positions := [("BTC", Position.mk "BTC" (2/5) 50000 20000 0 50000 0 1)] })
        "ETH").tradeHistory =
        ({ mkPaperTrader 0 60 1000 (1/2) 10000 2 1000 with
          positions := [("BTC", Position.mk "BTC" (2/5) 50000 20000 0 50000 0 1)] } :
            PaperTrader).tradeHistory ∧
      (abortCommitClearPending
        ({ mkPaperTrader 0 60 1000 (1/2) 10000 2 1000 with
          positions := [("BTC", Position.mk "BTC" (2/5) 50000 20000 0 50000 0 1)] })
        "ETH").totalRealizedPnL =
        ({ mkPaperTrader 0 60 1000 (1/2) 10000 2 1000 with
          positions := [("BTC", Position.mk "BTC" (2/5) 50000 20000 0 50000 0 1)] } :
            PaperTrader).totalRealizedPnL ∧
      (abortCommitClearPending
        ({ mkPaperTrader 0 60 1000 (1/2) 10000 2 1000 with
          positions := [("BTC", Position.mk "BTC" (2/5) 50000 20000 0 50000 0 1)] })
        "ETH").totalTrades =
        ({ mkPaperTrader 0 60 1000 (1/2) 10000 2 1000 with
          positions := [("BTC", Position.mk "BTC" (2/5) 50000 20000 0 50000 0 1)] } :
            PaperTrader).totalTrades ∧
      (abortCommitClearPending
        ({ mkPaperTrader 0 60 1000 (1/2) 10000 2 1000 with
          positions := [("BTC", Position.mk "BTC" (2/5) 50000 20000 0 50000 0 1)] })
        "ETH").pendingFills "ETH" = [] ∧
      (abortCommitClearPending
        ({ mkPaperTrader 0 60 1000 (1/2) 10000 2 1000 with
          positions := [("BTC", Position.mk "BTC" (2/5) 50000 20000 0 50000 0 1)] })
        "ETH").pendingVolume "ETH" = 0) :=
  ⟨by norm_num [mkPaperTrader],
   (claim_C7_dynamic_sizing
      ({ mkPaperTrader 0 60 1000 (1/2) 10000 2 1000 with
        positions := [("BTC", Position.mk "BTC" (2/5) 50000 20000 0 50000 0 1)] })
      (Fill.mk "ETH" "B" 10 4000 0 (some 0)) "ETH"
      (by norm_num [mkPaperTrader])
      (by
        intro e he
        simp only [List.mem_singleton] at he
        subst he
        norm_num)).2
     (by norm_num [calculateAvailableCapital, currentExposure, calculateUnrealizedPnL,
       mkPaperTrader, show |(2 : ℚ)/5| = 2/5 from abs_of_nonneg (by norm_num)])⟩

/-- Validation against the dynamic-sizing test vectors: a 0.38 BTC
position marked at 50000 consumes 19000 of the 20000 ceiling, so a fill at
4000 sizes to exactly `(20000 - 19000) / 4000 = 0.25` (Scenario E). -/
example :
    calculateDynamicTradeSize
      ({ mkPaperTrader 0 60 1000 (1/2) 10000 2 1000 with
        positions := [("BTC", Position.mk "BTC" (19/50) 50000 19000 0 50000 0 1)] })
      (Fill.mk "ETH" "B" 10 4000 0 (some 0)) = 1/4 := by
  norm_num [calculateDynamicTradeSize, calculateAvailableCapital, currentExposure,
    calculateUnrealizedPnL, mkPaperTrader,
    show |(19 : ℚ)/50| = 19/50 from abs_of_nonneg (by norm_num)]

/-- Validation against the dynamic-sizing test vectors: with no open
positions the full base notional applies — `1000 / 50000 = 0.02`. -/
example :
    calculateDynamicTradeSize (mkPaperTrader 0 60 1000 (1/2) 10000 2 1000)
      (Fill.mk "BTC" "B" 10 50000 0 (some 0)) = 1/50 := by
  norm_num [calculateDynamicTradeSize, calculateAvailableCapital, currentExposure,
    mkPaperTrader]
